import Mathlib

/-!
Browsing engine of `dnssd` (`browse.go`)

A shallow embedding of the entry projection (`BrowseEntry.ServiceInstanceName`
and its unescaped variants), of the query construction and the control loop of
`lookupTypes`, and of the reconciliation it performs on every received message
(`browse.go`, lines 116-164), followed by the properties proved about them.

Conventions of the embedding:

* Go slices and maps are lists; a map is the list of its (key, value) pairs in
  the order in which `range` visits them, so every statement holds for every
  iteration order.
* `net.IP` is a list of bytes, `int` and `time.Duration` are integers.
* The `add` and `rmv` callbacks are arbitrary caller functions; their
  invocations are recorded, in order, in a log of `Callback` values.
* The cache is external: a reconciliation receives the snapshot returned by
  `cache.Services()` as a list of `Service` values.  The cache is not modified
  during a reconciliation, so the same snapshot is used by both passes.
-/

namespace Dnssd

/-- Go `net.IP`: a byte slice. -/
abbrev IP := List Nat

/-- The struct `BrowseEntry` of `browse.go`, lines 16-26 (the field `Type` is
written `Type_`, `Type` being reserved). -/
structure BrowseEntry where
  IPs : List IP
  Host : String
  Port : Int
  IfaceName : String
  Name : String
  Type_ : String
  Domain : String
  Text : List (String × String)
  TTL : Int
deriving DecidableEq, Repr

/-- The fields of the cache aggregate `Service` that `lookupTypes` reads.  The
declaration of the type lives outside `browse.go`; `ifaceIPs` is the map from
interface name to addresses, listed in iteration order. -/
structure Service where
  Name : String
  Type_ : String
  Domain : String
  Host : String
  Port : Int
  Text : List (String × String)
  TTL : Int
  ifaceIPs : List (String × List IP)
deriving DecidableEq, Repr

/-- One invocation of a caller callback, with the entry passed to it. -/
inductive Callback where
  | add (e : BrowseEntry)
  | rmv (e : BrowseEntry)
deriving DecidableEq, Repr

/-- The entry a callback was invoked with. -/
def Callback.entry : Callback → BrowseEntry
  | .add e => e
  | .rmv e => e

/-- Whether the invocation is one of `add`. -/
def Callback.isAdd : Callback → Bool
  | .add _ => true
  | .rmv _ => false

/-- The fragment of Go's `fmt.Sprintf` used by `browse.go`: the verb `%s`
consumes the next string operand, every other character of the format is
copied.  A `%s` without operand prints Go's `%!s(MISSING)`. -/
def sprintf : List Char → List String → List Char
  | [], _ => []
  | [c], _ => [c]
  | c :: d :: fmt, args =>
    if c = '%' ∧ d = 's' then
      match args with
      | a :: args' => a.toList ++ sprintf fmt args'
      | [] => "%!s(MISSING)".toList ++ sprintf fmt []
    else c :: sprintf (d :: fmt) args

/-- `BrowseEntry.ServiceInstanceName` (`browse.go`, lines 58-60):
`fmt.Sprintf("%s.%s.%s.", e.Name, e.Type_, e.Domain)`. -/
def BrowseEntry.ServiceInstanceName (e : BrowseEntry) : String :=
  String.mk (sprintf "%s.%s.%s.".toList [e.Name, e.Type_, e.Domain])

/-- Modelled from the spec: the method `Service.ServiceInstanceName` is declared
outside `browse.go`; the spec gives the fully-qualified instance name of a
Service as `name.type.domain.`, the same template as for a `BrowseEntry`. -/
def Service.ServiceInstanceName (s : Service) : String :=
  String.mk (sprintf "%s.%s.%s.".toList [s.Name, s.Type_, s.Domain])

/-- The identity key `(Type, Name, IfaceName)` compared on line 124. -/
def BrowseEntry.key (e : BrowseEntry) : String × String × String :=
  (e.Type_, e.Name, e.IfaceName)

/-- The state the control loop carries from one reconciliation to the next:
the tracked entries `es`, and the log of callback invocations so far. -/
structure State where
  es : List BrowseEntry
  calls : List Callback
deriving DecidableEq, Repr

/-- The inner search of pass 1 (`browse.go`, lines 122-128): scan the tracked
entries and stop at the first one with the given type, name and interface. -/
def foundTracked (type name ifaceName : String) : List BrowseEntry → Bool
  | [] => false
  | e :: es =>
    if e.Type_ = type ∧ e.Name = name ∧ e.IfaceName = ifaceName then true
    else foundTracked type name ifaceName es

/-- The entry built on lines 130-140 from a Service and one of its
(interface, addresses) pairs. -/
def newEntry (srv : Service) (ifaceName : String) (ips : List IP) : BrowseEntry :=
  { IPs := ips
    Host := srv.Host
    Port := srv.Port
    IfaceName := ifaceName
    Name := srv.Name
    Type_ := srv.Type_
    Domain := srv.Domain
    Text := srv.Text
    TTL := srv.TTL }

/-- The loop over `srv.ifaceIPs` (`browse.go`, lines 121-144): an interface
whose key is not tracked yet gets a new entry, which is appended to `es` and
passed to `add`. -/
def pass1Ifaces (srv : Service) : List (String × List IP) → State → State
  | [], st => st
  | (ifaceName, ips) :: rest, st =>
    if foundTracked srv.Type_ srv.Name ifaceName st.es then
      pass1Ifaces srv rest st
    else
      pass1Ifaces srv rest
        { es := st.es ++ [newEntry srv ifaceName ips]
          calls := st.calls ++ [Callback.add (newEntry srv ifaceName ips)] }

/-- Pass 1 (`browse.go`, lines 116-145): the loop over `cache.Services()`.
`ServiceName` stands for the method `Service.ServiceName`, declared outside
`browse.go`; `services` are the requested service-type strings, and
`serviceSet.ContainsOne` is membership in them. -/
def pass1 (ServiceName : Service → String) (services : List String) :
    List Service → State → State
  | [], st => st
  | srv :: rest, st =>
    if ¬ (ServiceName srv ∈ services) then
      pass1 ServiceName services rest st
    else
      pass1 ServiceName services rest (pass1Ifaces srv srv.ifaceIPs st)

/-- The inner search of pass 2 (`browse.go`, lines 149-155): scan the snapshot
and stop at the first Service with the entry's instance name. -/
def foundService (e : BrowseEntry) : List Service → Bool
  | [] => false
  | srv :: rest =>
    if srv.ServiceInstanceName = e.ServiceInstanceName then true
    else foundService e rest

/-- Pass 2 (`browse.go`, lines 147-163): the loop over the tracked entries,
with the slice `tmp` under construction and the callback log. -/
def pass2 (snapshot : List Service) : List BrowseEntry → State → State
  | [], st => st
  | e :: rest, st =>
    if foundService e snapshot then
      pass2 snapshot rest { es := st.es ++ [e], calls := st.calls }
    else
      pass2 snapshot rest { es := st.es, calls := st.calls ++ [Callback.rmv e] }

/-- One reconciliation (`browse.go`, lines 116-164) of the tracked entries
`es` against a cache snapshot: pass 1, then pass 2 over the entries pass 1 left
(`tmp` starts empty and replaces `es` on line 164).  The log starts empty, so
`calls` of the result are the callbacks of this reconciliation. -/
def reconcile (ServiceName : Service → String) (services : List String)
    (snapshot : List Service) (es : List BrowseEntry) : State :=
  let st1 := pass1 ServiceName services snapshot { es := es, calls := [] }
  pass2 snapshot st1.es { es := [], calls := st1.calls }

/-- The message-received events of the control loop (`browse.go`, lines
104-164), one cache snapshot per received message, starting from the state
given; the log accumulates the callbacks of all reconciliations. -/
def run (ServiceName : Service → String) (services : List String) :
    List (List Service) → State → State
  | [], st => st
  | snapshot :: rest, st =>
    let r := reconcile ServiceName services snapshot st.es
    run ServiceName services rest { es := r.es, calls := st.calls ++ r.calls }

/-- The state on entry to the loop (`es := []*BrowseEntry{}`, line 104, and
no callback invoked yet). -/
def State.init : State := { es := [], calls := [] }

/-! ## Specification vocabulary -/

/-- The callbacks of a log that were invoked with an entry of identity key `k`,
in order. -/
def keyCalls (k : String × String × String) (calls : List Callback) : List Callback :=
  calls.filter (fun c => c.entry.key = k)

/-- A sequence of callbacks strictly alternates, starting with `add`: its first
element, if any, is an `add`, and any two consecutive elements are of
different kinds. -/
def Alternates (l : List Callback) : Prop :=
  (∀ c, l.head? = some c → c.isAdd = true) ∧
    l.Chain' (fun a b => a.isAdd ≠ b.isAdd)

/-- No two tracked entries, at different positions, have the same identity
key `(Type, Name, IfaceName)`. -/
def NoDupKeys (es : List BrowseEntry) : Prop :=
  es.Pairwise (fun a b => a.key ≠ b.key)

instance decidableNoDupKeys (es : List BrowseEntry) : Decidable (NoDupKeys es) := by
  unfold NoDupKeys; infer_instance

/-- What the loop over the interfaces of one Service does to a state: it
appends a list `A` of new entries to `es` and logs `add` for each of them. -/
structure IfacesAdds (srv : Service) (l : List (String × List IP))
    (es A : List BrowseEntry) : Prop where
  src : ∀ e ∈ A, ∃ i ips, (i, ips) ∈ l ∧ e = newEntry srv i ips
  fresh : ∀ e ∈ A, e.key ∉ es.map BrowseEntry.key
  distinct : NoDupKeys A
  cover : ∀ p ∈ l, (srv.Type_, srv.Name, p.1) ∈ (es ++ A).map BrowseEntry.key

/-- What pass 1 does to a state: it appends a list `A` of new entries to `es`
and logs `add` for each of them; every new entry is built from a requested
Service of the snapshot and one of its interfaces, its key was not tracked,
no two new entries share a key, and afterwards the key of every requested
Service and interface is tracked. -/
structure Pass1Adds (ServiceName : Service → String) (services : List String)
    (snapshot : List Service) (es A : List BrowseEntry) : Prop where
  src : ∀ e ∈ A, ∃ s ∈ snapshot, ServiceName s ∈ services ∧
    ∃ i ips, (i, ips) ∈ s.ifaceIPs ∧ e = newEntry s i ips
  fresh : ∀ e ∈ A, e.key ∉ es.map BrowseEntry.key
  distinct : NoDupKeys A
  cover : ∀ s ∈ snapshot, ServiceName s ∈ services → ∀ p ∈ s.ifaceIPs,
    (s.Type_, s.Name, p.1) ∈ (es ++ A).map BrowseEntry.key

/-- Whether the last callback of a sequence is an `add` (`false` for the empty
sequence). -/
def lastIsAdd (l : List Callback) : Bool :=
  (l.getLast?.map Callback.isAdd).getD false

/-- The invariant of the control loop relating the tracked entries to the log:
no key is tracked twice, and for every key the callbacks logged for it
alternate, the last of them being an `add` exactly when the key is tracked. -/
def Inv (live : List BrowseEntry) (tr : List Callback) : Prop :=
  NoDupKeys live ∧ ∀ k, Alternates (keyCalls k tr) ∧
    (lastIsAdd (keyCalls k tr) = true ↔ k ∈ live.map BrowseEntry.key)

/-! ## Concrete inputs -/

/-- Modelled from the spec: the method `Service.ServiceName` is declared outside
`browse.go`; the spec selects in pass 1 "every Service whose type is one of the
requested types", so the string looked up among the requested types is the
Service's type.  Only the concrete examples use it; the general theorems take
the method as a parameter. -/
def Service.ServiceName (s : Service) : String := s.Type_

/-- A printer advertised on the interfaces `en0` and `en1`. -/
def printer : Service :=
  { Name := "lp", Type_ := "_ipp._tcp", Domain := "local", Host := "lp.local.", Port := 631
    Text := [("pdl", "pdf")], TTL := 120
    ifaceIPs := [("en0", [[10, 0, 0, 7]]), ("en1", [[192, 168, 1, 7]])] }

/-- The same printer, reported on `en0` only. -/
def printerEn0 : Service := { printer with ifaceIPs := [("en0", [[10, 0, 0, 7]])] }

/-- A Service of the same type and name in another domain. -/
def printerCorp : Service := { printerEn0 with Domain := "corp" }

/-- The same printer with changed host, port, text, lifetime and address. -/
def printerMoved : Service :=
  { printer with Host := "lp2.local.", Port := 9100, Text := [], TTL := 60
                 ifaceIPs := [("en0", [[10, 0, 0, 8]]), ("en1", [[192, 168, 1, 7]])] }

/-- The entry reported for `printer` on `en0`. -/
def entryEn0 : BrowseEntry :=
  { IPs := [[10, 0, 0, 7]], Host := "lp.local.", Port := 631, IfaceName := "en0", Name := "lp"
    Type_ := "_ipp._tcp", Domain := "local", Text := [("pdl", "pdf")], TTL := 120 }

/-- The entry reported for `printer` on `en1`. -/
def entryEn1 : BrowseEntry :=
  { entryEn0 with IPs := [[192, 168, 1, 7]], IfaceName := "en1" }

/-- The entry reported for `printerCorp` on `en0`. -/
def entryCorp : BrowseEntry := { entryEn0 with Domain := "corp" }

/-! ## Unescaped names -/

/-- `BrowseEntry.UnescapedName` (`browse.go`, lines 69-71):
`unquote.Replace(e.Name)`.  The package-level replacer `unquote` is declared
outside `browse.go`; the parameter `unquote` stands for its method `Replace`. -/
def BrowseEntry.UnescapedName (unquote : String → String) (e : BrowseEntry) : String :=
  unquote e.Name

/-- `BrowseEntry.UnescapedServiceInstanceName` (`browse.go`, lines 64-66):
`fmt.Sprintf("%s.%s.%s.", e.UnescapedName(), e.Type, e.Domain)`. -/
def BrowseEntry.UnescapedServiceInstanceName (unquote : String → String)
    (e : BrowseEntry) : String :=
  String.mk (sprintf "%s.%s.%s.".toList [e.UnescapedName unquote, e.Type_, e.Domain])

/-- Modelled from the spec: the replacer `unquote` is declared outside
`browse.go`; unescaping "removes any escape characters" (`browse.go`, lines
62-63), the escape character being the backslash, as in `Printer\ 1`, which
unescapes to `Printer 1`.  Only the concrete examples use it; the general
theorems take the replacer as a parameter. -/
def unquoteReplace (s : String) : String :=
  String.mk (s.toList.filter (fun c => c ≠ '\\'))

/-- An entry whose name and domain both contain an escaped space. -/
def entryEscapedDomain : BrowseEntry :=
  { IPs := [[10, 0, 0, 7]], Host := "lp.local.", Port := 631, IfaceName := "en0"
    Name := "Printer\\ 1", Type_ := "_ipp._tcp", Domain := "home\\ net", Text := [], TTL := 120 }

/-! ## Query construction and the control loop -/

/-- The struct `dns.Question` of the DNS library. -/
structure Question where
  Name : String
  Qtype : Nat
  Qclass : Nat
deriving DecidableEq, Repr

/-- The DNS library's constant `dns.TypePTR`. -/
def TypePTR : Nat := 12

/-- The DNS library's constant `dns.ClassINET`. -/
def ClassINET : Nat := 1

/-- The sections of the DNS library's `dns.Msg`; a resource record is
represented by its presentation string. -/
structure Msg where
  Question : List Question
  Answer : List String
  Ns : List String
  Extra : List String
deriving DecidableEq, Repr

/-- Go `net.Interface`, as far as it identifies an interface. -/
structure Interface where
  Index : Int
  Name : String
deriving DecidableEq, Repr

/-- The struct `Query`, declared outside `browse.go` and built on line 98 from
its fields `msg` and `iface`. -/
structure Query where
  msg : Msg
  iface : Interface
deriving DecidableEq, Repr

/-- The loop of `browse.go`, lines 78-84: one question is appended to
`m.Question` for every requested service type, in order. -/
def appendQuestions : List String → Msg → Msg
  | [], m => m
  | s :: rest, m =>
    appendQuestions rest
      { m with Question := m.Question ++ [{ Name := s, Qtype := TypePTR, Qclass := ClassINET }] }

/-- The message built on lines 76-84: `new(dns.Msg)` with an empty question
list, then the loop over `services`. -/
def buildMsg (services : List String) : Msg :=
  appendQuestions services { Question := [], Answer := [], Ns := [], Extra := [] }

/-- The queries the dispatch task puts on the channel `qs` (`browse.go`, lines
95-100), in order, for the interfaces returned by `MulticastInterfaces()`
(declared outside `browse.go`, hence a parameter). -/
def buildQueries (m : Msg) : List Interface → List Query
  | [] => []
  | iface :: rest => { msg := m, iface := iface } :: buildQueries m rest

/-- A Go `error` value, represented by its message. -/
abbrev Err := String

/-- The events the `select` of the control loop serves (`browse.go`, lines
106-167): a query received from `qs`, with whether `conn.SendQuery` fails; a
message received from `ch`, given by the snapshot `cache.Services()` returns
after `cache.UpdateFrom`; and `ctx.Done()`. -/
inductive Event where
  | dispatch (q : Query) (sendFails : Bool)
  | message (snapshot : List Service)
  | cancel
deriving DecidableEq, Repr

/-- The control loop between two events: the tracked entries and callback log,
the queries passed to `conn.SendQuery`, and the value `lookupTypes` returned
(`none` while the `for` loop is running). -/
structure Loop where
  st : State
  sent : List Query
  result : Option Err
deriving DecidableEq, Repr

/-- The loop on entry to the `for` statement (line 105). -/
def Loop.start : Loop := { st := State.init, sent := [], result := none }

/-- One iteration of the `for`/`select` (`browse.go`, lines 105-168) serving
the given event; `ctxErr` is the value of `ctx.Err()` once the context is done.
After `lookupTypes` has returned no event is served. -/
def Loop.step (ServiceName : Service → String) (services : List String) (ctxErr : Err)
    (l : Loop) (ev : Event) : Loop :=
  match l.result with
  | some _ => l
  | none =>
    match ev with
    | Event.dispatch q _ => { l with sent := l.sent ++ [q] }
    | Event.message snapshot =>
      let r := reconcile ServiceName services snapshot l.st.es
      { l with st := { es := r.es, calls := l.st.calls ++ r.calls } }
    | Event.cancel => { l with result := some ctxErr }

/-- The control loop serving a sequence of events, first to last. -/
def Loop.exec (ServiceName : Service → String) (services : List String) (ctxErr : Err) :
    Loop → List Event → Loop
  | l, [] => l
  | l, ev :: rest =>
    Loop.exec ServiceName services ctxErr (Loop.step ServiceName services ctxErr l ev) rest

/-- The interfaces `en0` and `en1`. -/
def twoInterfaces : List Interface := [{ Index := 1, Name := "en0" }, { Index := 2, Name := "en1" }]

/-! ## Data carried by the callbacks -/

/-- Every `rmv` of a log is preceded, among the callbacks of its key, directly
by an `add` of the very same entry value: the most recent earlier callback for
the key of the entry is `add` with that entry. -/
def RmvMatchesAdd (tr : List Callback) : Prop :=
  ∀ (n : Nat) (e : BrowseEntry), tr[n]? = some (Callback.rmv e) →
    (keyCalls e.key (tr.take n)).getLast? = some (Callback.add e)

/-- The invariant of the control loop relating the tracked values to the log:
no key is tracked twice, the most recent callback for the key of a tracked
entry is the `add` of that entry, and every `rmv` so far matched its `add`. -/
def InvData (live : List BrowseEntry) (tr : List Callback) : Prop :=
  NoDupKeys live ∧
    (∀ e ∈ live, (keyCalls e.key tr).getLast? = some (Callback.add e)) ∧
    RmvMatchesAdd tr

/-! ## Snapshots up to order -/

/-- Two Services agree in every field except for the order in which their
interface map lists its (interface, addresses) pairs. -/
def SameService (s s' : Service) : Prop :=
  s' = { s with ifaceIPs := s'.ifaceIPs } ∧ s.ifaceIPs.Perm s'.ifaceIPs

/-- Two snapshots list the same Services, with the same interfaces per
Service, possibly in a different order: the second is a re-ordering of the
first in which each Service may list its interfaces in another order. -/
def SameUpToOrder (snapshot snapshot' : List Service) : Prop :=
  ∃ mid, snapshot.Perm mid ∧ List.Forall₂ SameService mid snapshot'

/-- An entry that pass 1 may build from a snapshot: the entry of a Service of a
requested type and one of its (interface, addresses) pairs. -/
def Candidate (ServiceName : Service → String) (services : List String)
    (snapshot : List Service) (e : BrowseEntry) : Prop :=
  ∃ s ∈ snapshot, ServiceName s ∈ services ∧ ∃ p ∈ s.ifaceIPs, e = newEntry s p.1 p.2

/-- A tracked entry left over from a Service of another domain, on `en1`. -/
def entryCorpEn1 : BrowseEntry := { entryCorp with IfaceName := "en1" }

/-- The printer with its interface map listed in the other order. -/
def printerSwapped : Service :=
  { printer with ifaceIPs := [("en1", [[192, 168, 1, 7]]), ("en0", [[10, 0, 0, 7]])] }

/-- A second Service of the requested type, seen on `en0`. -/
def scanner : Service :=
  { Name := "scan", Type_ := "_ipp._tcp", Domain := "local", Host := "scan.local.", Port := 8631
    Text := [], TTL := 120, ifaceIPs := [("en0", [[10, 0, 0, 9]])] }

/-! ## Entry projection -/

theorem sprintf_instanceName (a b c : String) :
    String.mk (sprintf "%s.%s.%s.".toList [a, b, c]) = a ++ "." ++ b ++ "." ++ c ++ "." := by
  apply String.ext
  show sprintf ['%', 's', '.', '%', 's', '.', '%', 's', '.'] [a, b, c] = _
  simp [sprintf]

theorem Service.instanceName_newEntry (s : Service) (i : String) (ips : List IP) :
    (newEntry s i ips).ServiceInstanceName = s.ServiceInstanceName := rfl

/-! ## The two inner searches -/

theorem foundTracked_iff (t n i : String) (es : List BrowseEntry) :
    foundTracked t n i es = true ↔ ∃ e ∈ es, e.Type_ = t ∧ e.Name = n ∧ e.IfaceName = i := by
  induction es with
  | nil => simp [foundTracked]
  | cons e es ih =>
    by_cases h : e.Type_ = t ∧ e.Name = n ∧ e.IfaceName = i
    · simp [foundTracked, h]
    · simp only [foundTracked, h, if_false, ih, List.mem_cons, exists_eq_or_imp, false_or]

theorem foundTracked_iff_key (t n i : String) (es : List BrowseEntry) :
    foundTracked t n i es = true ↔ (t, n, i) ∈ es.map BrowseEntry.key := by
  rw [foundTracked_iff]
  simp [BrowseEntry.key, Prod.ext_iff]

theorem foundService_iff (e : BrowseEntry) (snapshot : List Service) :
    foundService e snapshot = true ↔
      ∃ s ∈ snapshot, s.ServiceInstanceName = e.ServiceInstanceName := by
  induction snapshot with
  | nil => simp [foundService]
  | cons s rest ih =>
    by_cases h : s.ServiceInstanceName = e.ServiceInstanceName
    · simp [foundService, h]
    · simp only [foundService, h, if_false, ih, List.mem_cons, exists_eq_or_imp, false_or]

/-! ## Pass 2 as a filter -/

theorem pass2_eq (snapshot : List Service) (l : List BrowseEntry) (st : State) :
    pass2 snapshot l st =
      { es := st.es ++ l.filter (fun e => foundService e snapshot)
        calls := st.calls ++
          (l.filter (fun e => !foundService e snapshot)).map Callback.rmv } := by
  induction l generalizing st with
  | nil => simp [pass2]
  | cons e rest ih =>
    by_cases h : foundService e snapshot = true
    · simp [pass2, h, ih]
    · simp [pass2, h, ih]

/-! ## Pass 1 as a list of additions -/

theorem pass1Ifaces_spec (srv : Service) (l : List (String × List IP)) (st : State) :
    ∃ A, pass1Ifaces srv l st = { es := st.es ++ A, calls := st.calls ++ A.map Callback.add } ∧
      IfacesAdds srv l st.es A := by
  induction l generalizing st with
  | nil =>
    exact ⟨[], by simp [pass1Ifaces], ⟨by simp, by simp, List.Pairwise.nil, by simp⟩⟩
  | cons p rest ih =>
    obtain ⟨i, ips⟩ := p
    by_cases h : foundTracked srv.Type_ srv.Name i st.es = true
    · obtain ⟨A, hA, hs⟩ := ih st
      refine ⟨A, by simp [pass1Ifaces, h, hA], ⟨?_, hs.fresh, hs.distinct, ?_⟩⟩
      · intro e he
        obtain ⟨j, jps, hj, rfl⟩ := hs.src e he
        exact ⟨j, jps, List.mem_cons_of_mem _ hj, rfl⟩
      · intro q hq
        rcases List.mem_cons.1 hq with rfl | hq
        · have := (foundTracked_iff_key _ _ _ _).1 h
          rw [List.map_append, List.mem_append]
          exact Or.inl this
        · exact hs.cover q hq
    · obtain ⟨A, hA, hs⟩ := ih
        { es := st.es ++ [newEntry srv i ips]
          calls := st.calls ++ [Callback.add (newEntry srv i ips)] }
      have hk : (newEntry srv i ips).key ∉ st.es.map BrowseEntry.key := by
        intro hmem
        exact h ((foundTracked_iff_key _ _ _ _).2 hmem)
      refine ⟨newEntry srv i ips :: A, by simp [pass1Ifaces, h, hA], ⟨?_, ?_, ?_, ?_⟩⟩
      · intro e he
        rcases List.mem_cons.1 he with rfl | he
        · exact ⟨i, ips, List.mem_cons_self _ _, rfl⟩
        · obtain ⟨j, jps, hj, rfl⟩ := hs.src e he
          exact ⟨j, jps, List.mem_cons_of_mem _ hj, rfl⟩
      · intro e he
        rcases List.mem_cons.1 he with rfl | he
        · exact hk
        · intro hmem
          exact hs.fresh e he (by
            rw [List.map_append, List.mem_append]; exact Or.inl hmem)
      · refine List.Pairwise.cons ?_ hs.distinct
        intro e he heq
        exact hs.fresh e he (by
          rw [List.map_append, List.mem_append]
          exact Or.inr (by simp [heq]))
      · intro q hq
        rcases List.mem_cons.1 hq with rfl | hq
        · simp [BrowseEntry.key, newEntry]
        · have := hs.cover q hq
          simpa using this

theorem pass1_spec (ServiceName : Service → String) (services : List String)
    (snapshot : List Service) (st : State) :
    ∃ A, pass1 ServiceName services snapshot st =
        { es := st.es ++ A, calls := st.calls ++ A.map Callback.add } ∧
      Pass1Adds ServiceName services snapshot st.es A := by
  induction snapshot generalizing st with
  | nil =>
    exact ⟨[], by simp [pass1], ⟨by simp, by simp, List.Pairwise.nil, by simp⟩⟩
  | cons srv rest ih =>
    by_cases h : ServiceName srv ∈ services
    · obtain ⟨A1, hA1, h1⟩ := pass1Ifaces_spec srv srv.ifaceIPs st
      obtain ⟨A2, hA2, h2⟩ := ih (pass1Ifaces srv srv.ifaceIPs st)
      rw [hA1] at hA2 h2
      simp only at h2
      refine ⟨A1 ++ A2, by simp [pass1, h, hA1, hA2], ⟨?_, ?_, ?_, ?_⟩⟩
      · intro e he
        rcases List.mem_append.1 he with he | he
        · obtain ⟨i, ips, hi, rfl⟩ := h1.src e he
          exact ⟨srv, List.mem_cons_self _ _, h, i, ips, hi, rfl⟩
        · obtain ⟨s, hs, hreq, rest'⟩ := h2.src e he
          exact ⟨s, List.mem_cons_of_mem _ hs, hreq, rest'⟩
      · intro e he
        rcases List.mem_append.1 he with he | he
        · exact h1.fresh e he
        · intro hmem
          exact h2.fresh e he (by
            rw [List.map_append, List.mem_append]; exact Or.inl hmem)
      · refine List.pairwise_append.2 ⟨h1.distinct, h2.distinct, ?_⟩
        intro a ha b hb heq
        exact h2.fresh b hb (by
          rw [List.map_append, List.mem_append]
          exact Or.inr (List.mem_map.2 ⟨a, ha, heq⟩))
      · intro s hs hreq q hq
        rcases List.mem_cons.1 hs with rfl | hs
        · have := h1.cover q hq
          rw [← List.append_assoc, List.map_append, List.mem_append]
          exact Or.inl this
        · have := h2.cover s hs hreq q hq
          rwa [List.append_assoc] at this
    · obtain ⟨A, hA, hs⟩ := ih st
      refine ⟨A, by simp [pass1, h, hA], ⟨?_, hs.fresh, hs.distinct, ?_⟩⟩
      · intro e he
        obtain ⟨s, hmem, rest'⟩ := hs.src e he
        exact ⟨s, List.mem_cons_of_mem _ hmem, rest'⟩
      · intro s hmem hreq q hq
        rcases List.mem_cons.1 hmem with rfl | hmem
        · exact absurd hreq h
        · exact hs.cover s hmem hreq q hq

/-! ## One reconciliation in closed form -/

theorem foundService_of_src (snapshot : List Service) (s : Service) (hs : s ∈ snapshot)
    (i : String) (ips : List IP) : foundService (newEntry s i ips) snapshot = true :=
  (foundService_iff _ _).2 ⟨s, hs, rfl⟩

theorem Pass1Adds.found {ServiceName : Service → String} {services : List String}
    {snapshot : List Service} {es A : List BrowseEntry}
    (h : Pass1Adds ServiceName services snapshot es A) :
    ∀ e ∈ A, foundService e snapshot = true := by
  intro e he
  obtain ⟨s, hs, -, i, ips, -, rfl⟩ := h.src e he
  exact foundService_of_src snapshot s hs i ips

/-- One reconciliation keeps the tracked entries whose instance name is in the
snapshot, appends the additions `A` of pass 1, and logs `add` for `A` followed
by `rmv` for the tracked entries it dropped. -/
theorem reconcile_spec (ServiceName : Service → String) (services : List String)
    (snapshot : List Service) (es : List BrowseEntry) :
    ∃ A, Pass1Adds ServiceName services snapshot es A ∧
      reconcile ServiceName services snapshot es =
        { es := es.filter (fun e => foundService e snapshot) ++ A
          calls := A.map Callback.add ++
            (es.filter (fun e => !foundService e snapshot)).map Callback.rmv } := by
  obtain ⟨A, hA, hs⟩ := pass1_spec ServiceName services snapshot { es := es, calls := [] }
  refine ⟨A, hs, ?_⟩
  have hfA : A.filter (fun e => foundService e snapshot) = A :=
    List.filter_eq_self.2 (fun e he => hs.found e he)
  have hnA : A.filter (fun e => !foundService e snapshot) = [] :=
    List.filter_eq_nil_iff.2 (fun e he => by simp [hs.found e he])
  simp only [reconcile, hA, pass2_eq, List.filter_append, hfA, hnA, List.nil_append,
    List.append_nil]

/-! ## Alternation of the callbacks of one key -/

theorem Alternates.nil : Alternates [] :=
  ⟨by simp, List.chain'_nil⟩

theorem Alternates.snoc {l : List Callback} {c : Callback} (h : Alternates l)
    (hc : lastIsAdd l ≠ c.isAdd) : Alternates (l ++ [c]) := by
  constructor
  · intro d hd
    cases l with
    | nil =>
      simp only [List.nil_append, List.head?_cons, Option.some.injEq] at hd
      subst hd
      simp only [lastIsAdd, List.getLast?_nil, Option.map_none', Option.getD_none] at hc
      revert hc
      cases c.isAdd <;> simp
    | cons a l => exact h.1 d (by simpa using hd)
  · refine List.chain'_append.2 ⟨h.2, List.chain'_singleton c, ?_⟩
    intro x hx y hy
    simp only [List.head?_cons, Option.mem_def, Option.some.injEq] at hy
    subst hy
    have hx' : l.getLast? = some x := hx
    simpa [lastIsAdd, hx'] using hc

theorem lastIsAdd_snoc (l : List Callback) (c : Callback) :
    lastIsAdd (l ++ [c]) = c.isAdd := by
  simp [lastIsAdd]

theorem keyCalls_snoc_self (tr : List Callback) (c : Callback) :
    keyCalls c.entry.key (tr ++ [c]) = keyCalls c.entry.key tr ++ [c] := by
  simp [keyCalls, List.filter_append]

theorem keyCalls_snoc_other (k : String × String × String) (tr : List Callback)
    (c : Callback) (h : c.entry.key ≠ k) : keyCalls k (tr ++ [c]) = keyCalls k tr := by
  simp [keyCalls, List.filter_append, h]

theorem Inv.initial : Inv [] [] :=
  ⟨List.Pairwise.nil, fun k => ⟨by simpa [keyCalls] using Alternates.nil, by simp [keyCalls, lastIsAdd]⟩⟩

theorem Inv.add_step {live : List BrowseEntry} {tr : List Callback} {e : BrowseEntry}
    (h : Inv live tr) (he : e.key ∉ live.map BrowseEntry.key) :
    Inv (live ++ [e]) (tr ++ [Callback.add e]) := by
  refine ⟨?_, fun k => ?_⟩
  · refine List.pairwise_append.2 ⟨h.1, List.pairwise_singleton _ _, ?_⟩
    intro a ha b hb heq
    rw [List.mem_singleton] at hb
    subst hb
    exact he (List.mem_map.2 ⟨a, ha, heq⟩)
  · by_cases hk : e.key = k
    · subst hk
      have hlast : lastIsAdd (keyCalls e.key tr) = false := by
        cases hl : lastIsAdd (keyCalls e.key tr)
        · rfl
        · exact absurd ((h.2 e.key).2.1 hl) he
      have hs := keyCalls_snoc_self tr (Callback.add e)
      simp only [Callback.entry] at hs
      rw [hs]
      refine ⟨(h.2 e.key).1.snoc (by simp [hlast, Callback.isAdd]), ?_⟩
      simp [lastIsAdd_snoc, Callback.isAdd]
    · rw [keyCalls_snoc_other k tr (Callback.add e) hk]
      refine ⟨(h.2 k).1, (h.2 k).2.trans ?_⟩
      simp only [List.map_append, List.mem_append, List.map_cons, List.map_nil,
        List.mem_singleton]
      constructor
      · exact Or.inl
      · rintro (h1 | h1)
        · exact h1
        · exact absurd h1.symm hk

theorem Inv.rmv_step {l1 l2 : List BrowseEntry} {tr : List Callback} {e : BrowseEntry}
    (h : Inv (l1 ++ e :: l2) tr) : Inv (l1 ++ l2) (tr ++ [Callback.rmv e]) := by
  have hnd := h.1
  unfold NoDupKeys at hnd
  rw [List.pairwise_append] at hnd
  obtain ⟨hp1, hp2, hcross⟩ := hnd
  rw [List.pairwise_cons] at hp2
  have hnot : e.key ∉ (l1 ++ l2).map BrowseEntry.key := by
    intro hmem
    obtain ⟨a, ha, heq⟩ := List.mem_map.1 hmem
    rcases List.mem_append.1 ha with ha | ha
    · exact hcross a ha e (List.mem_cons_self _ _) heq
    · exact hp2.1 a ha heq.symm
  refine ⟨?_, fun k => ?_⟩
  · exact List.pairwise_append.2 ⟨hp1, hp2.2, fun a ha b hb =>
      hcross a ha b (List.mem_cons_of_mem _ hb)⟩
  · by_cases hk : e.key = k
    · subst hk
      have hlast : lastIsAdd (keyCalls e.key tr) = true :=
        (h.2 e.key).2.2 (by simp)
      have hs := keyCalls_snoc_self tr (Callback.rmv e)
      simp only [Callback.entry] at hs
      rw [hs]
      refine ⟨(h.2 e.key).1.snoc (by simp [hlast, Callback.isAdd]), ?_⟩
      simp only [lastIsAdd_snoc, Callback.isAdd]
      constructor
      · intro hf; exact absurd hf (by simp)
      · intro hm; exact absurd hm hnot
    · rw [keyCalls_snoc_other k tr (Callback.rmv e) hk]
      refine ⟨(h.2 k).1, (h.2 k).2.trans ?_⟩
      simp only [List.map_append, List.mem_append, List.map_cons, List.mem_cons]
      constructor
      · rintro (h1 | h1 | h1)
        · exact Or.inl h1
        · exact absurd h1.symm hk
        · exact Or.inr h1
      · rintro (h1 | h1)
        · exact Or.inl h1
        · exact Or.inr (Or.inr h1)

theorem Inv.adds {A : List BrowseEntry} :
    ∀ {live : List BrowseEntry} {tr : List Callback}, Inv live tr → NoDupKeys A →
      (∀ e ∈ A, e.key ∉ live.map BrowseEntry.key) →
      Inv (live ++ A) (tr ++ A.map Callback.add) := by
  induction A with
  | nil => intro live tr h _ _; simpa using h
  | cons a A ih =>
    intro live tr h hd hf
    have hd' := List.pairwise_cons.1 hd
    have h1 := h.add_step (hf a (List.mem_cons_self _ _))
    have h2 := ih h1 hd'.2 (by
      intro e he hmem
      simp only [List.map_append, List.mem_append, List.map_cons, List.map_nil,
        List.mem_singleton] at hmem
      rcases hmem with hmem | hmem
      · exact hf e (List.mem_cons_of_mem _ he) hmem
      · exact hd'.1 e he hmem.symm)
    simpa using h2

theorem Inv.rmvs (p : BrowseEntry → Bool) (l : List BrowseEntry) :
    ∀ (pre : List BrowseEntry) (tr : List Callback), Inv (pre ++ l) tr →
      Inv (pre ++ l.filter p) (tr ++ (l.filter (fun e => !p e)).map Callback.rmv) := by
  induction l with
  | nil => intro pre tr h; simpa using h
  | cons a l ih =>
    intro pre tr h
    by_cases ha : p a = true
    · have h1 : Inv ((pre ++ [a]) ++ l) tr := by simpa using h
      have h2 := ih _ _ h1
      simpa [ha] using h2
    · have h2 := ih _ _ h.rmv_step
      simpa [ha] using h2

theorem Inv.preserved_by_reconcile (ServiceName : Service → String) (services : List String)
    (snapshot : List Service) {es : List BrowseEntry} {tr : List Callback} (h : Inv es tr) :
    Inv (reconcile ServiceName services snapshot es).es
      (tr ++ (reconcile ServiceName services snapshot es).calls) := by
  obtain ⟨A, hA, hr⟩ := reconcile_spec ServiceName services snapshot es
  rw [hr]
  have h1 := h.adds hA.distinct hA.fresh
  have h2 := Inv.rmvs (fun e => foundService e snapshot) (es ++ A) [] _
    (by simpa using h1)
  have hfA : A.filter (fun e => foundService e snapshot) = A :=
    List.filter_eq_self.2 (fun e he => hA.found e he)
  have hnA : A.filter (fun e => !foundService e snapshot) = [] :=
    List.filter_eq_nil_iff.2 (fun e he => by simp [hA.found e he])
  simpa [List.filter_append, hfA, hnA] using h2

theorem Inv.preserved_by_run (ServiceName : Service → String) (services : List String)
    (snapshots : List (List Service)) :
    ∀ (st : State), Inv st.es st.calls →
      Inv (run ServiceName services snapshots st).es
        (run ServiceName services snapshots st).calls := by
  induction snapshots with
  | nil => intro st h; exact h
  | cons snapshot rest ih =>
    intro st h
    exact ih _ (h.preserved_by_reconcile ServiceName services snapshot)

theorem NoDupKeys.eq_of_key {es : List BrowseEntry} (h : NoDupKeys es) {a b : BrowseEntry}
    (ha : a ∈ es) (hb : b ∈ es) (hk : a.key = b.key) : a = b := by
  by_contra hne
  exact List.Pairwise.forall (fun _ _ hxy => Ne.symm hxy) h ha hb hne hk

theorem NoDupKeys.nodup {es : List BrowseEntry} (h : NoDupKeys es) : es.Nodup :=
  List.Pairwise.imp (fun hk heq => hk (congrArg BrowseEntry.key heq)) h

theorem NoDupKeys.after_reconcile (ServiceName : Service → String) (services : List String)
    (snapshot : List Service) {es : List BrowseEntry} (h : NoDupKeys es) :
    NoDupKeys (reconcile ServiceName services snapshot es).es := by
  obtain ⟨A, hA, hr⟩ := reconcile_spec ServiceName services snapshot es
  rw [hr]
  refine List.pairwise_append.2 ⟨List.Pairwise.sublist (List.filter_sublist _) h, hA.distinct, ?_⟩
  intro a ha b hb heq
  exact hA.fresh b hb (List.mem_map.2 ⟨a, (List.mem_filter.1 ha).1, heq⟩)

/-! ## The claims -/

/-- C1: for every sequence of cache snapshots reconciled one after another from
the empty tracked set and every identity key `(Type, Name, IfaceName)`, the
`add` and `rmv` callbacks invoked with entries of that key strictly alternate,
starting with `add`. -/
theorem add_rmv_alternate (ServiceName : Service → String) (services : List String)
    (snapshots : List (List Service)) (k : String × String × String) :
    Alternates (keyCalls k (run ServiceName services snapshots State.init).calls) :=
  ((Inv.preserved_by_run ServiceName services snapshots State.init Inv.initial).2 k).1

/-- C2: the empty tracked set has no two entries with the same identity key, and
one reconciliation of a tracked set without duplicate keys against any
snapshot yields a tracked set without duplicate keys. -/
theorem tracked_keys_unique (ServiceName : Service → String) (services : List String) :
    NoDupKeys State.init.es ∧
      ∀ (es : List BrowseEntry) (snapshot : List Service), NoDupKeys es →
        NoDupKeys (reconcile ServiceName services snapshot es).es :=
  ⟨List.Pairwise.nil, fun _ snapshot h => h.after_reconcile ServiceName services snapshot⟩

/-- Witness of C2: reconciling the tracked set of the `en0` entry against the
printer on two interfaces leaves no duplicate key. -/
theorem tracked_keys_unique_witness :
    NoDupKeys [entryEn0] ∧
      NoDupKeys (reconcile Service.ServiceName ["_ipp._tcp"] [printer] [entryEn0]).es :=
  ⟨by decide,
    (tracked_keys_unique Service.ServiceName ["_ipp._tcp"]).2 [entryEn0] [printer] (by decide)⟩

/-- C3, as stated, fails: the tracked set reached from the empty one by the
snapshot `[printerEn0]` holds the `local` entry; reconciled against
`[printerCorp]` (same type, name and interface, other domain) the first run
only removes that entry, and the second run against the same snapshot invokes
`add` and changes the tracked set. -/
theorem repeat_snapshot_counterexample :
    (reconcile Service.ServiceName ["_ipp._tcp"] [printerEn0] []).es = [entryEn0] ∧
    reconcile Service.ServiceName ["_ipp._tcp"] [printerCorp] [entryEn0] =
      { es := [], calls := [Callback.rmv entryEn0] } ∧
    reconcile Service.ServiceName ["_ipp._tcp"] [printerCorp]
        (reconcile Service.ServiceName ["_ipp._tcp"] [printerCorp] [entryEn0]).es =
      { es := [entryCorp], calls := [Callback.add entryCorp] } := by
  decide

/-- C3, amended: when a reconciliation is run twice in succession against the
same snapshot, the second run never invokes `rmv`; and if every tracked entry
whose identity key is that of a requested-type snapshot Service and one of its
interfaces has its instance name carried by some snapshot Service, the second
run invokes no callback at all and leaves the tracked set unchanged. -/
theorem repeat_snapshot (ServiceName : Service → String) (services : List String)
    (snapshot : List Service) (es : List BrowseEntry) :
    (∀ e, Callback.rmv e ∉
      (reconcile ServiceName services snapshot
        (reconcile ServiceName services snapshot es).es).calls) ∧
    ((∀ e ∈ es, ∀ s ∈ snapshot, ServiceName s ∈ services → ∀ p ∈ s.ifaceIPs,
        e.Type_ = s.Type_ → e.Name = s.Name → e.IfaceName = p.1 →
        ∃ s' ∈ snapshot, s'.ServiceInstanceName = e.ServiceInstanceName) →
      (reconcile ServiceName services snapshot
        (reconcile ServiceName services snapshot es).es).calls = [] ∧
      (reconcile ServiceName services snapshot
        (reconcile ServiceName services snapshot es).es).es =
        (reconcile ServiceName services snapshot es).es) := by
  obtain ⟨A, hA, hr⟩ := reconcile_spec ServiceName services snapshot es
  obtain ⟨B, hB, hr2⟩ := reconcile_spec ServiceName services snapshot
    (reconcile ServiceName services snapshot es).es
  have hall : ∀ e ∈ (reconcile ServiceName services snapshot es).es,
      foundService e snapshot = true := by
    intro e he
    rw [hr] at he
    rcases List.mem_append.1 he with he | he
    · exact (List.mem_filter.1 he).2
    · exact hA.found e he
  have hkeep : (reconcile ServiceName services snapshot es).es.filter
      (fun e => foundService e snapshot) = (reconcile ServiceName services snapshot es).es :=
    List.filter_eq_self.2 hall
  have hdrop : (reconcile ServiceName services snapshot es).es.filter
      (fun e => !foundService e snapshot) = [] :=
    List.filter_eq_nil_iff.2 (fun e he => by simp [hall e he])
  rw [hkeep, hdrop] at hr2
  constructor
  · intro e he
    rw [hr2] at he
    simp at he
  · intro hyp
    have hBnil : B = [] := by
      cases B with
      | nil => rfl
      | cons b B' =>
        exfalso
        obtain ⟨s, hs, hreq, i, ips, hi, hb⟩ := hB.src b (List.mem_cons_self _ _)
        have hfresh := hB.fresh b (List.mem_cons_self _ _)
        have hcov := hA.cover s hs hreq (i, ips) hi
        have hbk : b.key = (s.Type_, s.Name, i) := by rw [hb]; rfl
        rw [hbk] at hfresh
        apply hfresh
        obtain ⟨t, ht, htk⟩ := List.mem_map.1 hcov
        refine List.mem_map.2 ⟨t, ?_, htk⟩
        rw [hr]
        rcases List.mem_append.1 ht with ht | ht
        · refine List.mem_append.2 (Or.inl (List.mem_filter.2 ⟨ht, ?_⟩))
          simp only [BrowseEntry.key, Prod.mk.injEq] at htk
          exact (foundService_iff _ _).2 (hyp t ht s hs hreq (i, ips) hi htk.1 htk.2.1 htk.2.2)
        · exact List.mem_append.2 (Or.inr ht)
    subst hBnil
    rw [hr2]
    simp

/-- Witness of C3 (amended): the tracked `en0` entry has the key and the
instance name of the printer in the snapshot, whose data changed meanwhile. -/
theorem repeat_snapshot_witness :
    (reconcile Service.ServiceName ["_ipp._tcp"] [printerMoved]
        (reconcile Service.ServiceName ["_ipp._tcp"] [printerMoved] [entryEn0]).es).calls = [] ∧
      (reconcile Service.ServiceName ["_ipp._tcp"] [printerMoved]
        (reconcile Service.ServiceName ["_ipp._tcp"] [printerMoved] [entryEn0]).es).es =
        (reconcile Service.ServiceName ["_ipp._tcp"] [printerMoved] [entryEn0]).es :=
  (repeat_snapshot Service.ServiceName ["_ipp._tcp"] [printerMoved] [entryEn0]).2 (by decide)

/-- C4, as stated, fails: the printer is seen on `en0` and `en1`, which tracks
one entry per interface; when it is then reported on `en0` only, the snapshot
has no Service with addresses on `en1`, yet the reconciliation invokes no
callback and the `en1` entry stays tracked. -/
theorem removal_on_eviction_counterexample :
    (reconcile Service.ServiceName ["_ipp._tcp"] [printer] []).es = [entryEn0, entryEn1] ∧
    (∀ s ∈ [printerEn0], ¬ (s.Type_ = entryEn1.Type_ ∧ s.Name = entryEn1.Name ∧
        entryEn1.IfaceName ∈ s.ifaceIPs.map Prod.fst)) ∧
    reconcile Service.ServiceName ["_ipp._tcp"] [printerEn0] [entryEn0, entryEn1] =
      { es := [entryEn0, entryEn1], calls := [] } := by
  decide

/-- C4, amended: for a tracked set without duplicate keys containing `e`, if no
snapshot Service has the instance name of `e`, the next reconciliation invokes
`rmv` exactly once with the stored value of `e` and no entry with the key of
`e` stays tracked; if some snapshot Service has the instance name of `e`
(whatever interfaces it is reported on), `e` stays tracked and `rmv` is not
invoked with it. -/
theorem removal_on_eviction (ServiceName : Service → String) (services : List String)
    (snapshot : List Service) (es : List BrowseEntry) (e : BrowseEntry)
    (hnd : NoDupKeys es) (he : e ∈ es) :
    ((∀ s ∈ snapshot, s.ServiceInstanceName ≠ e.ServiceInstanceName) →
      (reconcile ServiceName services snapshot es).calls.count (Callback.rmv e) = 1 ∧
      e.key ∉ (reconcile ServiceName services snapshot es).es.map BrowseEntry.key) ∧
    ((∃ s ∈ snapshot, s.ServiceInstanceName = e.ServiceInstanceName) →
      e ∈ (reconcile ServiceName services snapshot es).es ∧
      Callback.rmv e ∉ (reconcile ServiceName services snapshot es).calls) := by
  obtain ⟨A, hA, hr⟩ := reconcile_spec ServiceName services snapshot es
  rw [hr]
  constructor
  · intro hgone
    have hnf : foundService e snapshot = false := by
      cases hf : foundService e snapshot
      · rfl
      · obtain ⟨s, hs, heq⟩ := (foundService_iff _ _).1 hf
        exact absurd heq (hgone s hs)
    constructor
    · have hadd : List.count (Callback.rmv e) (A.map Callback.add) = 0 := by
        rw [List.count_eq_zero]
        intro hmem
        obtain ⟨a, -, ha⟩ := List.mem_map.1 hmem
        cases ha
      have hinj : Function.Injective Callback.rmv := fun a b hab => by cases hab; rfl
      simp only [List.count_append, hadd, zero_add]
      rw [List.count_map_of_injective _ _ hinj, List.count_filter (by simp [hnf])]
      exact List.count_eq_one_of_mem hnd.nodup he
    · intro hmem
      obtain ⟨t, ht, htk⟩ := List.mem_map.1 hmem
      rcases List.mem_append.1 ht with ht | ht
      · obtain ⟨ht1, ht2⟩ := List.mem_filter.1 ht
        have := hnd.eq_of_key ht1 he htk
        subst this
        simp [hnf] at ht2
      · exact hA.fresh t ht (by rw [htk]; exact List.mem_map.2 ⟨e, he, rfl⟩)
  · intro hex
    have hf : foundService e snapshot = true := (foundService_iff _ _).2 hex
    constructor
    · exact List.mem_append.2 (Or.inl (List.mem_filter.2 ⟨he, hf⟩))
    · intro hmem
      rcases List.mem_append.1 hmem with hmem | hmem
      · obtain ⟨a, -, ha⟩ := List.mem_map.1 hmem
        cases ha
      · obtain ⟨a, ha, hae⟩ := List.mem_map.1 hmem
        cases hae
        have := (List.mem_filter.1 ha).2
        simp [hf] at this

/-- Witness of C4 (amended): with both interface entries tracked and only a
Service of another domain in the snapshot, the `en1` entry is removed once. -/
theorem removal_on_eviction_witness :
    (reconcile Service.ServiceName ["_ipp._tcp"] [printerCorp]
        [entryEn0, entryEn1]).calls.count (Callback.rmv entryEn1) = 1 ∧
      entryEn1.key ∉ (reconcile Service.ServiceName ["_ipp._tcp"] [printerCorp]
        [entryEn0, entryEn1]).es.map BrowseEntry.key :=
  (removal_on_eviction Service.ServiceName ["_ipp._tcp"] [printerCorp]
    [entryEn0, entryEn1] entryEn1 (by decide) (by decide)).1 (by decide)

/-- C5: for a snapshot of one requested-type Service whose interface map has
exactly the two distinct interfaces `a` and `b`, reconciliation from the empty
tracked set invokes `add` exactly twice and nothing else, with entries of the
Service's name and type, interface `a` and `b`, and the addresses recorded for
`a` and for `b`; the resulting tracked set holds exactly these two entries. -/
theorem multi_interface_additions (ServiceName : Service → String) (services : List String)
    (s : Service) (a b : String) (ipsA ipsB : List IP)
    (hreq : ServiceName s ∈ services) (hab : a ≠ b)
    (hif : s.ifaceIPs = [(a, ipsA), (b, ipsB)]) :
    ∃ eA eB : BrowseEntry,
      reconcile ServiceName services [s] [] =
        { es := [eA, eB], calls := [Callback.add eA, Callback.add eB] } ∧
      eA.Name = s.Name ∧ eB.Name = s.Name ∧ eA.Type_ = s.Type_ ∧ eB.Type_ = s.Type_ ∧
      eA.IfaceName = a ∧ eB.IfaceName = b ∧ eA.IPs = ipsA ∧ eB.IPs = ipsB ∧ eA ≠ eB := by
  refine ⟨newEntry s a ipsA, newEntry s b ipsB, ?_, rfl, rfl, rfl, rfl, rfl, rfl, rfl, rfl, ?_⟩
  · have h1 : foundService (newEntry s a ipsA) [s] = true :=
      foundService_of_src [s] s (List.mem_singleton_self s) a ipsA
    have h2 : foundService (newEntry s b ipsB) [s] = true :=
      foundService_of_src [s] s (List.mem_singleton_self s) b ipsB
    have h3 : ¬ ((newEntry s a ipsA).Type_ = s.Type_ ∧
        (newEntry s a ipsA).Name = s.Name ∧ (newEntry s a ipsA).IfaceName = b) := by
      simp [newEntry, hab]
    have hp1 : pass1 ServiceName services [s] { es := [], calls := [] } =
        { es := [newEntry s a ipsA, newEntry s b ipsB]
          calls := [Callback.add (newEntry s a ipsA), Callback.add (newEntry s b ipsB)] } := by
      simp [pass1, hreq, hif, pass1Ifaces, foundTracked, h3]
    simp [reconcile, hp1, pass2, h1, h2]
  · intro h
    exact hab (congrArg BrowseEntry.IfaceName h)

/-- Witness of C5: the printer seen on `en0` and `en1`. -/
theorem multi_interface_additions_witness :
    ∃ eA eB : BrowseEntry,
      reconcile Service.ServiceName ["_ipp._tcp"] [printer] [] =
        { es := [eA, eB], calls := [Callback.add eA, Callback.add eB] } ∧
      eA.Name = printer.Name ∧ eB.Name = printer.Name ∧
      eA.Type_ = printer.Type_ ∧ eB.Type_ = printer.Type_ ∧
      eA.IfaceName = "en0" ∧ eB.IfaceName = "en1" ∧
      eA.IPs = [[10, 0, 0, 7]] ∧ eB.IPs = [[192, 168, 1, 7]] ∧ eA ≠ eB :=
  multi_interface_additions Service.ServiceName ["_ipp._tcp"] printer "en0" "en1"
    [[10, 0, 0, 7]] [[192, 168, 1, 7]] (by decide) (by decide) rfl

/-- C6: pass 1 appends a list `A` of entries to the tracked set and invokes
`add` with exactly these entries, in order, and no other callback; every entry
of `A` is built from a snapshot Service `s` of a requested type and an
interface `i` of `s` whose key `(s.Type, s.Name, i)` no tracked entry had, with
Host, Port, Text, TTL, Name, Type, Domain copied from `s`, IfaceName `i` and
the addresses `s` records for `i`; afterwards the key of every requested-type
Service and each of its interfaces is tracked. -/
theorem pass1_postcondition (ServiceName : Service → String) (services : List String)
    (snapshot : List Service) (es : List BrowseEntry) :
    ∃ A : List BrowseEntry,
      pass1 ServiceName services snapshot { es := es, calls := [] } =
        { es := es ++ A, calls := A.map Callback.add } ∧
      (∀ e ∈ A, ∃ s ∈ snapshot, ServiceName s ∈ services ∧ ∃ i ips, (i, ips) ∈ s.ifaceIPs ∧
        (∀ t ∈ es, ¬ (t.Type_ = s.Type_ ∧ t.Name = s.Name ∧ t.IfaceName = i)) ∧
        e.Host = s.Host ∧ e.Port = s.Port ∧ e.Text = s.Text ∧ e.TTL = s.TTL ∧
        e.Name = s.Name ∧ e.Type_ = s.Type_ ∧ e.Domain = s.Domain ∧
        e.IfaceName = i ∧ e.IPs = ips) ∧
      (∀ s ∈ snapshot, ServiceName s ∈ services → ∀ i ips, (i, ips) ∈ s.ifaceIPs →
        ∃ e ∈ es ++ A, e.Type_ = s.Type_ ∧ e.Name = s.Name ∧ e.IfaceName = i) := by
  obtain ⟨A, hA, hs⟩ := pass1_spec ServiceName services snapshot { es := es, calls := [] }
  refine ⟨A, by simpa using hA, ?_, ?_⟩
  · intro e he
    obtain ⟨s, hmem, hreq, i, ips, hi, rfl⟩ := hs.src e he
    refine ⟨s, hmem, hreq, i, ips, hi, ?_, rfl, rfl, rfl, rfl, rfl, rfl, rfl, rfl, rfl⟩
    intro t ht hk
    exact hs.fresh _ he (List.mem_map.2 ⟨t, ht, by
      simp [BrowseEntry.key, newEntry, hk.1, hk.2.1, hk.2.2]⟩)
  · intro s hmem hreq i ips hi
    obtain ⟨e, he, hk⟩ := List.mem_map.1 (hs.cover s hmem hreq (i, ips) hi)
    simp only [BrowseEntry.key, Prod.mk.injEq] at hk
    exact ⟨e, he, hk⟩

/-- C7: pass 2 over a tracked set yields exactly the sub-sequence, in the
original order, of the entries whose `ServiceInstanceName` is that of some
snapshot Service, and invokes `rmv`, in tracked order, once with the stored
value of each other entry and with nothing else. -/
theorem pass2_postcondition (snapshot : List Service) (es : List BrowseEntry)
    (calls : List Callback) :
    pass2 snapshot es { es := [], calls := calls } =
      { es := es.filter (fun e =>
          decide (∃ s ∈ snapshot, s.ServiceInstanceName = e.ServiceInstanceName))
        calls := calls ++ (es.filter (fun e =>
          decide (¬ ∃ s ∈ snapshot, s.ServiceInstanceName = e.ServiceInstanceName))).map
            Callback.rmv } := by
  rw [pass2_eq]
  have h1 : ∀ e ∈ es, foundService e snapshot =
      decide (∃ s ∈ snapshot, s.ServiceInstanceName = e.ServiceInstanceName) := by
    intro e _
    rw [Bool.eq_iff_iff, foundService_iff]
    simp
  have h2 : ∀ e ∈ es, (!foundService e snapshot) =
      decide (¬ ∃ s ∈ snapshot, s.ServiceInstanceName = e.ServiceInstanceName) := by
    intro e he
    rw [h1 e he, decide_not]
  rw [List.filter_congr h1, List.filter_congr h2]
  simp

/-- C8: for a tracked set without duplicate keys containing `e` and a snapshot
containing a Service with the Type, Name and Domain of `e` (whatever its
Host, Port, Text, TTL and addresses), reconciliation invokes neither `add` nor
`rmv` with an entry of the key of `e`, and `e` itself is still tracked
afterwards. -/
theorem no_change_notification (ServiceName : Service → String) (services : List String)
    (snapshot : List Service) (es : List BrowseEntry) (e : BrowseEntry) (s : Service)
    (hnd : NoDupKeys es) (he : e ∈ es) (hs : s ∈ snapshot)
    (hT : s.Type_ = e.Type_) (hN : s.Name = e.Name) (hD : s.Domain = e.Domain) :
    (∀ c ∈ (reconcile ServiceName services snapshot es).calls, c.entry.key ≠ e.key) ∧
      e ∈ (reconcile ServiceName services snapshot es).es := by
  obtain ⟨A, hA, hr⟩ := reconcile_spec ServiceName services snapshot es
  have hf : foundService e snapshot = true :=
    (foundService_iff _ _).2 ⟨s, hs, by
      simp [Service.ServiceInstanceName, BrowseEntry.ServiceInstanceName, hT, hN, hD]⟩
  rw [hr]
  constructor
  · intro c hc hk
    rcases List.mem_append.1 hc with hc | hc
    · obtain ⟨a, ha, rfl⟩ := List.mem_map.1 hc
      exact hA.fresh a ha (by
        simp only [Callback.entry] at hk
        rw [hk]; exact List.mem_map.2 ⟨e, he, rfl⟩)
    · obtain ⟨t, ht, rfl⟩ := List.mem_map.1 hc
      obtain ⟨ht1, ht2⟩ := List.mem_filter.1 ht
      simp only [Callback.entry] at hk
      have := hnd.eq_of_key ht1 he hk
      subst this
      simp [hf] at ht2
  · exact List.mem_append.2 (Or.inl (List.mem_filter.2 ⟨he, hf⟩))

/-- Witness of C8: the `en0` entry is tracked and the snapshot holds the same
printer with another host, port, text, lifetime and `en0` address. -/
theorem no_change_notification_witness :
    printerMoved.Host ≠ entryEn0.Host ∧ printerMoved.Port ≠ entryEn0.Port ∧
    ((∀ c ∈ (reconcile Service.ServiceName ["_ipp._tcp"] [printerMoved]
        [entryEn0, entryEn1]).calls, c.entry.key ≠ entryEn0.key) ∧
      entryEn0 ∈ (reconcile Service.ServiceName ["_ipp._tcp"] [printerMoved]
        [entryEn0, entryEn1]).es) :=
  ⟨by decide, by decide,
    no_change_notification Service.ServiceName ["_ipp._tcp"] [printerMoved]
      [entryEn0, entryEn1] entryEn0 printerMoved (by decide) (by decide) (by decide)
      rfl rfl rfl⟩

/-- C9: the callbacks of one reconciliation are zero or more `add` invocations
followed by zero or more `rmv` invocations; no `add` comes after an `rmv`. -/
theorem adds_before_rmvs (ServiceName : Service → String) (services : List String)
    (snapshot : List Service) (es : List BrowseEntry) :
    (∃ adds rmvs : List BrowseEntry,
      (reconcile ServiceName services snapshot es).calls =
        adds.map Callback.add ++ rmvs.map Callback.rmv) ∧
    (reconcile ServiceName services snapshot es).calls.Pairwise
      (fun c d => c.isAdd = false → d.isAdd = false) := by
  obtain ⟨A, -, hr⟩ := reconcile_spec ServiceName services snapshot es
  rw [hr]
  refine ⟨⟨A, _, rfl⟩, ?_⟩
  refine List.pairwise_append.2 ⟨?_, ?_, ?_⟩
  · refine List.pairwise_map.2 (List.pairwise_of_forall ?_)
    intro a b h
    simp [Callback.isAdd] at h
  · refine List.pairwise_map.2 (List.pairwise_of_forall ?_)
    intro a b _
    rfl
  · intro c hc d hd _
    obtain ⟨t, -, rfl⟩ := List.mem_map.1 hd
    rfl

/-- C10: `ServiceInstanceName` of every entry is
`Name ++ "." ++ Type ++ "." ++ Domain ++ "."`, which ends in a dot; for the
name `Printer\ 1` (with the escape character), type `_ipp._tcp` and domain
`local` it is `Printer\ 1._ipp._tcp.local.`, escape character preserved. -/
theorem serviceInstanceName_format (e : BrowseEntry) :
    e.ServiceInstanceName = e.Name ++ "." ++ e.Type_ ++ "." ++ e.Domain ++ "." ∧
    e.ServiceInstanceName.toList.getLast? = some '.' ∧
    ({ e with Name := "Printer\\ 1", Type_ := "_ipp._tcp", Domain := "local" } :
      BrowseEntry).ServiceInstanceName = "Printer\\ 1._ipp._tcp.local." := by
  have h : ∀ x : BrowseEntry,
      x.ServiceInstanceName = x.Name ++ "." ++ x.Type_ ++ "." ++ x.Domain ++ "." :=
    fun x => sprintf_instanceName x.Name x.Type_ x.Domain
  refine ⟨h e, ?_, ?_⟩
  · rw [h e]
    show ((e.Name ++ "." ++ e.Type_ ++ "." ++ e.Domain) ++ ".").data.getLast? = some '.'
    rw [String.data_append]
    exact List.getLast?_concat _
  · rfl

/-- C11: for every entry, `UnescapedServiceInstanceName` is the unescaped Name
followed by `.`, the Type, `.`, the Domain and `.`, Type and Domain being
copied verbatim, and `UnescapedName` is the unescaped Name; for the name
`Printer\ 1`, which unescapes to `Printer 1`, type `_ipp._tcp` and domain
`local` the result is `Printer 1._ipp._tcp.local.`. -/
theorem unescapedServiceInstanceName_format (unquote : String → String) (e : BrowseEntry) :
    e.UnescapedServiceInstanceName unquote =
      unquote e.Name ++ "." ++ e.Type_ ++ "." ++ e.Domain ++ "." ∧
    e.UnescapedName unquote = unquote e.Name ∧
    (unquote "Printer\\ 1" = "Printer 1" →
      ({ e with Name := "Printer\\ 1", Type_ := "_ipp._tcp", Domain := "local" } :
        BrowseEntry).UnescapedServiceInstanceName unquote = "Printer 1._ipp._tcp.local.") := by
  have h : ∀ x : BrowseEntry, x.UnescapedServiceInstanceName unquote =
      unquote x.Name ++ "." ++ x.Type_ ++ "." ++ x.Domain ++ "." :=
    fun x => sprintf_instanceName (unquote x.Name) x.Type_ x.Domain
  refine ⟨h e, rfl, ?_⟩
  intro hq
  rw [h]
  simp only [hq]
  decide

/-- Witness of C11: with the replacer that deletes every backslash, the type
and the domain keep their escape characters and the example evaluates as
stated. -/
theorem unescapedServiceInstanceName_format_witness :
    unquoteReplace "Printer\\ 1" = "Printer 1" ∧
    entryEscapedDomain.UnescapedServiceInstanceName unquoteReplace =
      "Printer 1._ipp._tcp.home\\ net." ∧
    ({ entryEscapedDomain with Name := "Printer\\ 1", Type_ := "_ipp._tcp", Domain := "local" } :
      BrowseEntry).UnescapedServiceInstanceName unquoteReplace = "Printer 1._ipp._tcp.local." :=
  ⟨by decide, by decide,
    (unescapedServiceInstanceName_format unquoteReplace entryEscapedDomain).2.2 (by decide)⟩

theorem backslash_mem_unescaped (unquote : String → String) :
    '\\' ∈ (entryEscapedDomain.UnescapedServiceInstanceName unquote).toList := by
  have h : entryEscapedDomain.UnescapedServiceInstanceName unquote =
      unquote entryEscapedDomain.Name ++ "." ++ entryEscapedDomain.Type_ ++ "." ++
        entryEscapedDomain.Domain ++ "." :=
    sprintf_instanceName _ _ _
  rw [h]
  simp only [String.toList, String.data_append, List.mem_append]
  exact Or.inl (Or.inr (by decide))

/-- C14: the docstring of `UnescapedServiceInstanceName` promises
`ServiceInstanceName` with every escape character removed, but the code
unescapes the Name only: for the entry with domain `home\ net` the result
still contains a backslash, so it differs from the image of
`ServiceInstanceName` under any replacer that leaves no backslash there. -/
theorem unescaped_keeps_domain_escapes (unquote : String → String)
    (h : '\\' ∉ (unquote entryEscapedDomain.ServiceInstanceName).toList) :
    entryEscapedDomain.UnescapedServiceInstanceName unquote ≠
      unquote entryEscapedDomain.ServiceInstanceName := by
  intro heq
  exact h (heq ▸ backslash_mem_unescaped unquote)

/-- Witness of C14: with the replacer that deletes every backslash, the code
returns `Printer 1._ipp._tcp.home\ net.` where the instance name without its
escape characters is `Printer 1._ipp._tcp.home net.`. -/
theorem unescaped_keeps_domain_escapes_witness :
    entryEscapedDomain.ServiceInstanceName = "Printer\\ 1._ipp._tcp.home\\ net." ∧
    unquoteReplace entryEscapedDomain.ServiceInstanceName = "Printer 1._ipp._tcp.home net." ∧
    entryEscapedDomain.UnescapedServiceInstanceName unquoteReplace =
      "Printer 1._ipp._tcp.home\\ net." ∧
    entryEscapedDomain.UnescapedServiceInstanceName unquoteReplace ≠
      unquoteReplace entryEscapedDomain.ServiceInstanceName :=
  ⟨by decide, by decide, by decide,
    unescaped_keeps_domain_escapes unquoteReplace (by decide)⟩

/-! ## Query construction -/

theorem appendQuestions_eq (services : List String) (m : Msg) :
    appendQuestions services m =
      { m with Question := m.Question ++
          services.map (fun s => { Name := s, Qtype := TypePTR, Qclass := ClassINET }) } := by
  induction services generalizing m with
  | nil => simp [appendQuestions]
  | cons s rest ih => simp [appendQuestions, ih]

theorem buildQueries_eq (m : Msg) (ifaces : List Interface) :
    buildQueries m ifaces = ifaces.map (fun i => { msg := m, iface := i }) := by
  induction ifaces with
  | nil => rfl
  | cons i rest ih => simp [buildQueries, ih]

/-- C12: for every list of service-type strings the question list built by
`lookupTypes` has as many questions as there are strings, the k-th question
carrying the k-th string as Name with Qtype PTR and Qclass INET, and the
message has no answer records; the queries built for the interfaces are one
per interface, in order, each carrying this same message and its interface. -/
theorem query_construction (services : List String) (ifaces : List Interface) :
    (buildMsg services).Question.length = services.length ∧
    (∀ k : Nat, (buildMsg services).Question[k]? =
      (services[k]?).map
        (fun s => ({ Name := s, Qtype := TypePTR, Qclass := ClassINET } : Question))) ∧
    (buildMsg services).Answer = [] ∧
    (buildQueries (buildMsg services) ifaces).length = ifaces.length ∧
    (∀ k : Nat, (buildQueries (buildMsg services) ifaces)[k]? =
      (ifaces[k]?).map (fun i => ({ msg := buildMsg services, iface := i } : Query))) := by
  have hq : (buildMsg services).Question =
      services.map (fun s => { Name := s, Qtype := TypePTR, Qclass := ClassINET }) := by
    simp [buildMsg, appendQuestions_eq]
  refine ⟨by simp [hq], fun k => by simp [hq], by simp [buildMsg, appendQuestions_eq], ?_, ?_⟩
  · simp [buildQueries_eq]
  · intro k
    simp [buildQueries_eq]

/-! ## The control loop -/

theorem Loop.step_stopped (ServiceName : Service → String) (services : List String)
    (ctxErr : Err) (l : Loop) (ev : Event) (h : l.result ≠ none) :
    Loop.step ServiceName services ctxErr l ev = l := by
  unfold Loop.step
  cases hr : l.result with
  | none => exact absurd hr h
  | some e => rfl

theorem Loop.exec_stopped (ServiceName : Service → String) (services : List String)
    (ctxErr : Err) (l : Loop) (evs : List Event) (h : l.result ≠ none) :
    Loop.exec ServiceName services ctxErr l evs = l := by
  induction evs with
  | nil => rfl
  | cons ev rest ih =>
    simp only [Loop.exec, Loop.step_stopped ServiceName services ctxErr l ev h, ih]

theorem Loop.exec_append (ServiceName : Service → String) (services : List String)
    (ctxErr : Err) (l : Loop) (pre post : List Event) :
    Loop.exec ServiceName services ctxErr l (pre ++ post) =
      Loop.exec ServiceName services ctxErr (Loop.exec ServiceName services ctxErr l pre) post := by
  induction pre generalizing l with
  | nil => rfl
  | cons ev rest ih => exact ih _

theorem Loop.step_result (ServiceName : Service → String) (services : List String)
    (ctxErr : Err) (l : Loop) (ev : Event) (h : l.result = none) :
    (Loop.step ServiceName services ctxErr l ev).result =
      if ev = Event.cancel then some ctxErr else none := by
  unfold Loop.step
  rw [h]
  cases ev <;> simp [h]

theorem Loop.step_cancel_result (ServiceName : Service → String) (services : List String)
    (ctxErr : Err) (l : Loop) (h : l.result = none ∨ l.result = some ctxErr) :
    (Loop.step ServiceName services ctxErr l Event.cancel).result = some ctxErr := by
  rcases h with h | h
  · rw [Loop.step_result ServiceName services ctxErr l _ h]; simp
  · rw [Loop.step_stopped ServiceName services ctxErr l _ (by simp [h])]; exact h

theorem Loop.exec_result (ServiceName : Service → String) (services : List String)
    (ctxErr : Err) (evs : List Event) :
    ∀ l : Loop, (l.result = none ∨ l.result = some ctxErr) →
      ((Loop.exec ServiceName services ctxErr l evs).result = none ∨
        (Loop.exec ServiceName services ctxErr l evs).result = some ctxErr) := by
  induction evs with
  | nil => intro l h; exact h
  | cons ev rest ih =>
    intro l h
    refine ih _ ?_
    rcases h with h | h
    · rw [Loop.step_result ServiceName services ctxErr l ev h]
      by_cases hev : ev = Event.cancel
      · exact Or.inr (by simp [hev])
      · exact Or.inl (by simp [hev])
    · rw [Loop.step_stopped ServiceName services ctxErr l ev (by simp [h])]
      exact Or.inr h

theorem Loop.exec_no_message (ServiceName : Service → String) (services : List String)
    (ctxErr : Err) (evs : List Event) :
    ∀ l : Loop,
      (∀ snapshot, Event.message snapshot ∉ evs.takeWhile (fun ev => decide (ev ≠ Event.cancel))) →
      (Loop.exec ServiceName services ctxErr l evs).st = l.st := by
  induction evs with
  | nil => intro l _; rfl
  | cons ev rest ih =>
    intro l h
    by_cases hr : l.result = none
    · cases ev with
      | dispatch q b =>
        have hstep : (Loop.step ServiceName services ctxErr l (Event.dispatch q b)).st = l.st := by
          simp [Loop.step, hr]
        have := ih (Loop.step ServiceName services ctxErr l (Event.dispatch q b)) (by
          intro snapshot hmem
          exact h snapshot (by simpa [List.takeWhile] using hmem))
        simp only [Loop.exec, this, hstep]
      | message snapshot =>
        exact absurd (by simp [List.takeWhile]) (h snapshot)
      | cancel =>
        have hres : (Loop.step ServiceName services ctxErr l Event.cancel).result ≠ none := by
          rw [Loop.step_result ServiceName services ctxErr l _ hr]; simp
        have hstep : (Loop.step ServiceName services ctxErr l Event.cancel).st = l.st := by
          simp [Loop.step, hr]
        simp only [Loop.exec, Loop.exec_stopped ServiceName services ctxErr _ rest hres, hstep]
    · simp only [Loop.exec_stopped ServiceName services ctxErr l _ hr]

/-- C13: over the control loop as a step function on events, (1) a step leaves
the running loop only on the cancellation event, and then `lookupTypes` returns
exactly `ctx.Err()`; (2) serving a dispatch-ready or a cancellation event
invokes no callback and leaves the tracked set alone; (3) for every event
sequence with no message-received event before the cancellation, no callback
is invoked; (4) once a cancellation event has been served the loop has
returned `ctx.Err()` and later events, messages included, change nothing. -/
theorem cancellation (ServiceName : Service → String) (services : List String) (ctxErr : Err) :
    (∀ (l : Loop) (ev : Event), l.result = none →
      (Loop.step ServiceName services ctxErr l ev).result ≠ none →
      ev = Event.cancel ∧ (Loop.step ServiceName services ctxErr l ev).result = some ctxErr) ∧
    (∀ (l : Loop) (q : Query) (b : Bool),
      (Loop.step ServiceName services ctxErr l (Event.dispatch q b)).st = l.st) ∧
    (∀ l : Loop, (Loop.step ServiceName services ctxErr l Event.cancel).st = l.st) ∧
    (∀ evs : List Event,
      (∀ snapshot, Event.message snapshot ∉ evs.takeWhile (fun ev => decide (ev ≠ Event.cancel))) →
      (Loop.exec ServiceName services ctxErr Loop.start evs).st.calls = []) ∧
    (∀ pre post : List Event,
      (Loop.exec ServiceName services ctxErr Loop.start (pre ++ Event.cancel :: post)).result =
        some ctxErr ∧
      Loop.exec ServiceName services ctxErr Loop.start (pre ++ Event.cancel :: post) =
        Loop.exec ServiceName services ctxErr Loop.start (pre ++ [Event.cancel])) := by
  refine ⟨?_, ?_, ?_, ?_, ?_⟩
  · intro l ev hr hne
    rw [Loop.step_result ServiceName services ctxErr l ev hr] at hne ⊢
    by_cases hev : ev = Event.cancel
    · exact ⟨hev, by simp [hev]⟩
    · simp [hev] at hne
  · intro l q b
    unfold Loop.step
    cases l.result <;> rfl
  · intro l
    unfold Loop.step
    cases l.result <;> rfl
  · intro evs h
    rw [Loop.exec_no_message ServiceName services ctxErr evs Loop.start h]
    rfl
  · intro pre post
    have hres : (Loop.step ServiceName services ctxErr
        (Loop.exec ServiceName services ctxErr Loop.start pre) Event.cancel).result =
        some ctxErr :=
      Loop.step_cancel_result ServiceName services ctxErr _
        (Loop.exec_result ServiceName services ctxErr pre Loop.start (Or.inl rfl))
    have hstop : Loop.exec ServiceName services ctxErr Loop.start (pre ++ Event.cancel :: post) =
        Loop.step ServiceName services ctxErr
          (Loop.exec ServiceName services ctxErr Loop.start pre) Event.cancel := by
      rw [Loop.exec_append]
      simp only [Loop.exec]
      exact Loop.exec_stopped ServiceName services ctxErr _ post (by simp [hres])
    refine ⟨by rw [hstop]; exact hres, ?_⟩
    rw [hstop, Loop.exec_append]
    rfl

/-- Witness of C13: two queries are dispatched, the operation is cancelled,
and a message arriving afterwards is not processed. -/
theorem cancellation_witness :
    (Loop.exec Service.ServiceName ["_ipp._tcp"] "context canceled" Loop.start
      ((buildQueries (buildMsg ["_ipp._tcp"]) twoInterfaces).map (fun q => Event.dispatch q false)
        ++ Event.cancel :: [Event.message [printer]])).result = some "context canceled" ∧
    (Loop.exec Service.ServiceName ["_ipp._tcp"] "context canceled" Loop.start
      ((buildQueries (buildMsg ["_ipp._tcp"]) twoInterfaces).map (fun q => Event.dispatch q false)
        ++ Event.cancel :: [Event.message [printer]])).st.calls = [] :=
  ⟨((cancellation Service.ServiceName ["_ipp._tcp"] "context canceled").2.2.2.2
      ((buildQueries (buildMsg ["_ipp._tcp"]) twoInterfaces).map (fun q => Event.dispatch q false))
      [Event.message [printer]]).1,
    by decide⟩

theorem mem_add_calls_iff (A R : List BrowseEntry) (e : BrowseEntry) :
    Callback.add e ∈ A.map Callback.add ++ R.map Callback.rmv ↔ e ∈ A := by
  simp

theorem mem_rmv_calls_iff (A R : List BrowseEntry) (e : BrowseEntry) :
    Callback.rmv e ∈ A.map Callback.add ++ R.map Callback.rmv ↔ e ∈ R := by
  simp

/-- C17: within one reconciliation (the snapshot being the same in both
passes) no entry passed to `add` in pass 1 is passed to `rmv` in pass 2, and
every entry passed to `add` is in the resulting tracked set. -/
theorem added_not_removed (ServiceName : Service → String) (services : List String)
    (snapshot : List Service) (es : List BrowseEntry) :
    (∀ e, Callback.add e ∈ (reconcile ServiceName services snapshot es).calls →
      Callback.rmv e ∉ (reconcile ServiceName services snapshot es).calls) ∧
    (∀ e, Callback.add e ∈ (reconcile ServiceName services snapshot es).calls →
      e ∈ (reconcile ServiceName services snapshot es).es) := by
  obtain ⟨A, hA, hr⟩ := reconcile_spec ServiceName services snapshot es
  rw [hr]
  constructor
  · intro e hadd hrmv
    have heA : e ∈ A := (mem_add_calls_iff A _ e).1 hadd
    have heR := (mem_rmv_calls_iff A _ e).1 hrmv
    have hnf := (List.mem_filter.1 heR).2
    simp [hA.found e heA] at hnf
  · intro e hadd
    exact List.mem_append.2 (Or.inr ((mem_add_calls_iff A _ e).1 hadd))

/-! ## Invariants preserved by every addition and removal -/

theorem preserved_adds (P : List BrowseEntry → List Callback → Prop)
    (hadd : ∀ live tr e, P live tr → e.key ∉ live.map BrowseEntry.key →
      P (live ++ [e]) (tr ++ [Callback.add e]))
    (A : List BrowseEntry) :
    ∀ (live : List BrowseEntry) (tr : List Callback), P live tr → NoDupKeys A →
      (∀ e ∈ A, e.key ∉ live.map BrowseEntry.key) →
      P (live ++ A) (tr ++ A.map Callback.add) := by
  induction A with
  | nil => intro live tr h _ _; simpa using h
  | cons a A ih =>
    intro live tr h hd hf
    have hd' := List.pairwise_cons.1 hd
    have h1 := hadd live tr a h (hf a (List.mem_cons_self _ _))
    have h2 := ih _ _ h1 hd'.2 (by
      intro e he hmem
      simp only [List.map_append, List.mem_append, List.map_cons, List.map_nil,
        List.mem_singleton] at hmem
      rcases hmem with hmem | hmem
      · exact hf e (List.mem_cons_of_mem _ he) hmem
      · exact hd'.1 e he hmem.symm)
    simpa using h2

theorem preserved_rmvs (P : List BrowseEntry → List Callback → Prop)
    (hrmv : ∀ l1 l2 tr e, P (l1 ++ e :: l2) tr → P (l1 ++ l2) (tr ++ [Callback.rmv e]))
    (p : BrowseEntry → Bool) (l : List BrowseEntry) :
    ∀ (pre : List BrowseEntry) (tr : List Callback), P (pre ++ l) tr →
      P (pre ++ l.filter p) (tr ++ (l.filter (fun e => !p e)).map Callback.rmv) := by
  induction l with
  | nil => intro pre tr h; simpa using h
  | cons a l ih =>
    intro pre tr h
    by_cases ha : p a = true
    · have h1 : P ((pre ++ [a]) ++ l) tr := by simpa using h
      have h2 := ih _ _ h1
      simpa [ha] using h2
    · have h2 := ih _ _ (hrmv pre l tr a h)
      simpa [ha] using h2

theorem preserved_reconcile (P : List BrowseEntry → List Callback → Prop)
    (hadd : ∀ live tr e, P live tr → e.key ∉ live.map BrowseEntry.key →
      P (live ++ [e]) (tr ++ [Callback.add e]))
    (hrmv : ∀ l1 l2 tr e, P (l1 ++ e :: l2) tr → P (l1 ++ l2) (tr ++ [Callback.rmv e]))
    (ServiceName : Service → String) (services : List String)
    (snapshot : List Service) (es : List BrowseEntry) (tr : List Callback) (h : P es tr) :
    P (reconcile ServiceName services snapshot es).es
      (tr ++ (reconcile ServiceName services snapshot es).calls) := by
  obtain ⟨A, hA, hr⟩ := reconcile_spec ServiceName services snapshot es
  rw [hr]
  have h1 := preserved_adds P hadd A es tr h hA.distinct hA.fresh
  have h2 := preserved_rmvs P hrmv (fun e => foundService e snapshot) (es ++ A) [] _
    (by simpa using h1)
  have hfA : A.filter (fun e => foundService e snapshot) = A :=
    List.filter_eq_self.2 (fun e he => hA.found e he)
  have hnA : A.filter (fun e => !foundService e snapshot) = [] :=
    List.filter_eq_nil_iff.2 (fun e he => by simp [hA.found e he])
  simpa [List.filter_append, hfA, hnA] using h2

theorem preserved_run (P : List BrowseEntry → List Callback → Prop)
    (hadd : ∀ live tr e, P live tr → e.key ∉ live.map BrowseEntry.key →
      P (live ++ [e]) (tr ++ [Callback.add e]))
    (hrmv : ∀ l1 l2 tr e, P (l1 ++ e :: l2) tr → P (l1 ++ l2) (tr ++ [Callback.rmv e]))
    (ServiceName : Service → String) (services : List String)
    (snapshots : List (List Service)) :
    ∀ st : State, P st.es st.calls →
      P (run ServiceName services snapshots st).es
        (run ServiceName services snapshots st).calls := by
  induction snapshots with
  | nil => intro st h; exact h
  | cons snapshot rest ih =>
    intro st h
    exact ih _ (preserved_reconcile P hadd hrmv ServiceName services snapshot st.es st.calls h)

theorem NoDupKeys.append_fresh {live : List BrowseEntry} {e : BrowseEntry} (h : NoDupKeys live)
    (he : e.key ∉ live.map BrowseEntry.key) : NoDupKeys (live ++ [e]) := by
  refine List.pairwise_append.2 ⟨h, List.pairwise_singleton _ _, ?_⟩
  intro a ha b hb heq
  rw [List.mem_singleton] at hb
  subst hb
  exact he (List.mem_map.2 ⟨a, ha, heq⟩)

theorem NoDupKeys.remove_mid {l1 l2 : List BrowseEntry} {e : BrowseEntry}
    (h : NoDupKeys (l1 ++ e :: l2)) :
    NoDupKeys (l1 ++ l2) ∧ ∀ x ∈ l1 ++ l2, x.key ≠ e.key := by
  unfold NoDupKeys at h
  rw [List.pairwise_append] at h
  obtain ⟨hp1, hp2, hcross⟩ := h
  rw [List.pairwise_cons] at hp2
  refine ⟨List.pairwise_append.2 ⟨hp1, hp2.2, fun a ha b hb =>
    hcross a ha b (List.mem_cons_of_mem _ hb)⟩, ?_⟩
  intro x hx
  rcases List.mem_append.1 hx with hx | hx
  · exact hcross x hx e (List.mem_cons_self _ _)
  · exact fun heq => hp2.1 x hx heq.symm

theorem RmvMatchesAdd.append_call {tr : List Callback} {c : Callback} (h : RmvMatchesAdd tr)
    (hc : ∀ x, c = Callback.rmv x →
      (keyCalls x.key tr).getLast? = some (Callback.add x)) :
    RmvMatchesAdd (tr ++ [c]) := by
  intro n x hn
  rcases Nat.lt_trichotomy n tr.length with hlt | heq | hgt
  · rw [List.getElem?_append_left hlt] at hn
    rw [List.take_append_of_le_length (Nat.le_of_lt hlt)]
    exact h n x hn
  · subst heq
    rw [List.getElem?_append_right (Nat.le_refl _)] at hn
    simp only [Nat.sub_self, List.getElem?_cons_zero, Option.some.injEq] at hn
    rw [List.take_left]
    exact hc x hn
  · rw [List.getElem?_append_right (Nat.le_of_lt hgt)] at hn
    have : n - tr.length ≠ 0 := by omega
    obtain ⟨m, hm⟩ := Nat.exists_eq_succ_of_ne_zero this
    rw [hm] at hn
    simp at hn

theorem InvData.at_start : InvData [] [] :=
  ⟨List.Pairwise.nil, by simp, fun n e h => by simp at h⟩

theorem InvData.after_add (live : List BrowseEntry) (tr : List Callback) (e : BrowseEntry)
    (h : InvData live tr) (he : e.key ∉ live.map BrowseEntry.key) :
    InvData (live ++ [e]) (tr ++ [Callback.add e]) := by
  refine ⟨h.1.append_fresh he, ?_, h.2.2.append_call (fun x hx => by cases hx)⟩
  intro x hx
  rcases List.mem_append.1 hx with hx | hx
  · have hne : (Callback.add e).entry.key ≠ x.key := by
      intro heq
      exact he (List.mem_map.2 ⟨x, hx, heq.symm⟩)
    rw [keyCalls_snoc_other x.key tr (Callback.add e) hne]
    exact h.2.1 x hx
  · rw [List.mem_singleton] at hx
    subst hx
    have hs := keyCalls_snoc_self tr (Callback.add x)
    simp only [Callback.entry] at hs
    rw [hs]
    exact List.getLast?_concat _

theorem InvData.after_rmv (l1 l2 : List BrowseEntry) (tr : List Callback) (e : BrowseEntry)
    (h : InvData (l1 ++ e :: l2) tr) : InvData (l1 ++ l2) (tr ++ [Callback.rmv e]) := by
  obtain ⟨hnd, hkey⟩ := h.1.remove_mid
  refine ⟨hnd, ?_, h.2.2.append_call ?_⟩
  · intro x hx
    have hne : (Callback.rmv e).entry.key ≠ x.key := fun heq => hkey x hx heq.symm
    rw [keyCalls_snoc_other x.key tr (Callback.rmv e) hne]
    refine h.2.1 x ?_
    rcases List.mem_append.1 hx with hx | hx
    · exact List.mem_append.2 (Or.inl hx)
    · exact List.mem_append.2 (Or.inr (List.mem_cons_of_mem _ hx))
  · intro x hx
    cases hx
    exact h.2.1 e (by simp)

theorem getLast?_filter_of_getLast? (l : List Callback) (c : Callback)
    (h : l.getLast? = some c) (hc : c.isAdd = true) :
    (l.filter Callback.isAdd).getLast? = some c := by
  obtain ⟨l', rfl⟩ := List.getLast?_eq_some_iff.1 h
  simp [List.filter_append, hc]

/-- C16: for every sequence of cache snapshots reconciled from the empty
tracked set, whenever `rmv` is invoked with an entry, the most recent earlier
callback for the identity key of that entry is an `add`, and it was invoked
with the very same entry value (all nine fields); in particular the most
recent earlier `add` for the key carried that value. -/
theorem rmv_carries_added_data (ServiceName : Service → String) (services : List String)
    (snapshots : List (List Service)) (n : Nat) (e : BrowseEntry)
    (h : (run ServiceName services snapshots State.init).calls[n]? = some (Callback.rmv e)) :
    (keyCalls e.key ((run ServiceName services snapshots State.init).calls.take n)).getLast? =
      some (Callback.add e) ∧
    ((keyCalls e.key ((run ServiceName services snapshots State.init).calls.take n)).filter
      Callback.isAdd).getLast? = some (Callback.add e) := by
  have hinv := preserved_run InvData InvData.after_add InvData.after_rmv
    ServiceName services snapshots State.init InvData.at_start
  have h1 := hinv.2.2 n e h
  exact ⟨h1, getLast?_filter_of_getLast? _ _ h1 rfl⟩

/-- Witness of C16: the printer is seen on two interfaces, then its data
changes in the cache, then it disappears; the third callback is the `rmv` of
the `en0` entry, with the data first reported. -/
theorem rmv_carries_added_data_witness :
    (run Service.ServiceName ["_ipp._tcp"] [[printer], [printerMoved], []] State.init).calls =
      [Callback.add entryEn0, Callback.add entryEn1,
        Callback.rmv entryEn0, Callback.rmv entryEn1] ∧
    ((keyCalls entryEn0.key ((run Service.ServiceName ["_ipp._tcp"]
        [[printer], [printerMoved], []] State.init).calls.take 2)).getLast? =
      some (Callback.add entryEn0) ∧
    ((keyCalls entryEn0.key ((run Service.ServiceName ["_ipp._tcp"]
        [[printer], [printerMoved], []] State.init).calls.take 2)).filter
      Callback.isAdd).getLast? = some (Callback.add entryEn0)) :=
  ⟨by decide,
    rmv_carries_added_data Service.ServiceName ["_ipp._tcp"] [[printer], [printerMoved], []]
      2 entryEn0 (by decide)⟩

/-- Witness of C17: the printer seen on `en0` is added, not removed, and
tracked afterwards, while a stale entry is removed by the same
reconciliation. -/
theorem added_not_removed_witness :
    (reconcile Service.ServiceName ["_ipp._tcp"] [printerEn0] [entryCorpEn1]).calls =
      [Callback.add entryEn0, Callback.rmv entryCorpEn1] ∧
    Callback.rmv entryEn0 ∉
      (reconcile Service.ServiceName ["_ipp._tcp"] [printerEn0] [entryCorpEn1]).calls ∧
    entryEn0 ∈ (reconcile Service.ServiceName ["_ipp._tcp"] [printerEn0] [entryCorpEn1]).es :=
  ⟨by decide,
    (added_not_removed Service.ServiceName ["_ipp._tcp"] [printerEn0] [entryCorpEn1]).1
      entryEn0 (by decide),
    (added_not_removed Service.ServiceName ["_ipp._tcp"] [printerEn0] [entryCorpEn1]).2
      entryEn0 (by decide)⟩

/-! ## Snapshot order -/

theorem SameService.instanceName {s s' : Service} (h : SameService s s') :
    s'.ServiceInstanceName = s.ServiceInstanceName := by
  rw [h.1]
  rfl

theorem SameService.newEntry_eq {s s' : Service} (h : SameService s s') (i : String)
    (ips : List IP) : newEntry s' i ips = newEntry s i ips := by
  rw [h.1]
  rfl

theorem forall₂_sameService_left {l l' : List Service} (h : List.Forall₂ SameService l l') :
    ∀ s ∈ l, ∃ s' ∈ l', SameService s s' := by
  induction h with
  | nil => intro s hs; cases hs
  | cons hab _ ih =>
    intro s hs
    rcases List.mem_cons.1 hs with rfl | hs
    · exact ⟨_, List.mem_cons_self _ _, hab⟩
    · obtain ⟨s', hs', hr⟩ := ih s hs
      exact ⟨s', List.mem_cons_of_mem _ hs', hr⟩

theorem forall₂_sameService_right {l l' : List Service} (h : List.Forall₂ SameService l l') :
    ∀ s' ∈ l', ∃ s ∈ l, SameService s s' := by
  induction h with
  | nil => intro s hs; cases hs
  | cons hab _ ih =>
    intro s hs
    rcases List.mem_cons.1 hs with rfl | hs
    · exact ⟨_, List.mem_cons_self _ _, hab⟩
    · obtain ⟨s', hs', hr⟩ := ih s hs
      exact ⟨s', List.mem_cons_of_mem _ hs', hr⟩

theorem SameUpToOrder.of_perm {l l' : List Service} (h : l.Perm l') : SameUpToOrder l l' := by
  refine ⟨l', h, ?_⟩
  clear h
  induction l' with
  | nil => exact List.Forall₂.nil
  | cons s rest ih => exact List.Forall₂.cons ⟨rfl, List.Perm.refl _⟩ ih

theorem SameUpToOrder.mem_left {l l' : List Service} (h : SameUpToOrder l l') :
    ∀ s ∈ l, ∃ s' ∈ l', SameService s s' := by
  obtain ⟨mid, hp, hf⟩ := h
  intro s hs
  exact forall₂_sameService_left hf s (hp.mem_iff.1 hs)

theorem SameUpToOrder.mem_right {l l' : List Service} (h : SameUpToOrder l l') :
    ∀ s' ∈ l', ∃ s ∈ l, SameService s s' := by
  obtain ⟨mid, hp, hf⟩ := h
  intro s' hs'
  obtain ⟨s, hs, hr⟩ := forall₂_sameService_right hf s' hs'
  exact ⟨s, hp.mem_iff.2 hs, hr⟩

theorem SameUpToOrder.foundService_eq {l l' : List Service} (h : SameUpToOrder l l')
    (e : BrowseEntry) : foundService e l = foundService e l' := by
  rw [Bool.eq_iff_iff, foundService_iff, foundService_iff]
  constructor
  · rintro ⟨s, hs, heq⟩
    obtain ⟨s', hs', hr⟩ := h.mem_left s hs
    exact ⟨s', hs', hr.instanceName.trans heq⟩
  · rintro ⟨s', hs', heq⟩
    obtain ⟨s, hs, hr⟩ := h.mem_right s' hs'
    exact ⟨s, hs, hr.instanceName.symm.trans heq⟩

theorem SameUpToOrder.candidate_iff {ServiceName : Service → String} {services : List String}
    (hSN : ∀ (s : Service) (l : List (String × List IP)),
      ServiceName { s with ifaceIPs := l } = ServiceName s)
    {l l' : List Service} (h : SameUpToOrder l l') (e : BrowseEntry) :
    Candidate ServiceName services l e ↔ Candidate ServiceName services l' e := by
  constructor
  · rintro ⟨s, hs, hreq, p, hp, rfl⟩
    obtain ⟨s', hs', hr⟩ := h.mem_left s hs
    refine ⟨s', hs', ?_, p, hr.2.mem_iff.1 hp, (hr.newEntry_eq _ _).symm⟩
    rw [hr.1, hSN]
    exact hreq
  · rintro ⟨s', hs', hreq, p, hp, rfl⟩
    obtain ⟨s, hs, hr⟩ := h.mem_right s' hs'
    refine ⟨s, hs, ?_, p, hr.2.mem_iff.2 hp, hr.newEntry_eq _ _⟩
    rw [hr.1, hSN] at hreq
    exact hreq

theorem Pass1Adds.mem_iff {ServiceName : Service → String} {services : List String}
    {snapshot : List Service} {es A : List BrowseEntry}
    (h : Pass1Adds ServiceName services snapshot es A)
    (hdet : ∀ e e', Candidate ServiceName services snapshot e →
      Candidate ServiceName services snapshot e' → e.key = e'.key → e = e')
    (e : BrowseEntry) :
    e ∈ A ↔ Candidate ServiceName services snapshot e ∧ e.key ∉ es.map BrowseEntry.key := by
  have hcand : ∀ a ∈ A, Candidate ServiceName services snapshot a := by
    intro a ha
    obtain ⟨s, hs, hreq, i, ips, hi, rfl⟩ := h.src a ha
    exact ⟨s, hs, hreq, (i, ips), hi, rfl⟩
  constructor
  · intro he
    exact ⟨hcand e he, h.fresh e he⟩
  · rintro ⟨hc, hfresh⟩
    obtain ⟨s, hs, hreq, p, hp, rfl⟩ := hc
    have hcov := h.cover s hs hreq p hp
    obtain ⟨a, ha, hak⟩ := List.mem_map.1 hcov
    rcases List.mem_append.1 ha with ha | ha
    · exact absurd (List.mem_map.2 ⟨a, ha, hak⟩) hfresh
    · have := hdet a (newEntry s p.1 p.2) (hcand a ha) ⟨s, hs, hreq, p, hp, rfl⟩ hak
      rw [← this]
      exact ha

/-- C15, as stated, fails: two Services of the requested type with the same
type and name but different domains are both seen on `en0`; whichever the
snapshot lists first gets its entry added and blocks the other, so the two
orders of the same snapshot invoke `add` with different entries and track
different entries. -/
theorem snapshot_order_counterexample :
    List.Perm [printerEn0, printerCorp] [printerCorp, printerEn0] ∧
    reconcile Service.ServiceName ["_ipp._tcp"] [printerEn0, printerCorp] [] =
      { es := [entryEn0], calls := [Callback.add entryEn0] } ∧
    reconcile Service.ServiceName ["_ipp._tcp"] [printerCorp, printerEn0] [] =
      { es := [entryCorp], calls := [Callback.add entryCorp] } ∧
    entryEn0 ≠ entryCorp :=
  ⟨List.Perm.swap _ _ _, by decide, by decide, by decide⟩

/-- C15, amended: let `ServiceName` not depend on the interface map, and let
two snapshots list the same Services and the same interfaces per Service in
different orders; if any two requested-type (Service, interface) pairs of the
snapshot with the same type, name and interface name yield the same entry,
then the two reconciliations of a tracked set invoke `add` with the same
entries and `rmv` with the same entries (their logs are permutations of each
other), and the resulting tracked sets are permutations of each other. -/
theorem snapshot_order_independent (ServiceName : Service → String) (services : List String)
    (es : List BrowseEntry) (snapshot snapshot' : List Service)
    (hSN : ∀ (s : Service) (l : List (String × List IP)),
      ServiceName { s with ifaceIPs := l } = ServiceName s)
    (hperm : SameUpToOrder snapshot snapshot')
    (hdet : ∀ s ∈ snapshot, ServiceName s ∈ services → ∀ p ∈ s.ifaceIPs,
      ∀ s' ∈ snapshot, ServiceName s' ∈ services → ∀ p' ∈ s'.ifaceIPs,
        s.Type_ = s'.Type_ → s.Name = s'.Name → p.1 = p'.1 →
        newEntry s p.1 p.2 = newEntry s' p'.1 p'.2) :
    (∀ e, Callback.add e ∈ (reconcile ServiceName services snapshot es).calls ↔
      Callback.add e ∈ (reconcile ServiceName services snapshot' es).calls) ∧
    (∀ e, Callback.rmv e ∈ (reconcile ServiceName services snapshot es).calls ↔
      Callback.rmv e ∈ (reconcile ServiceName services snapshot' es).calls) ∧
    (reconcile ServiceName services snapshot es).calls.Perm
      (reconcile ServiceName services snapshot' es).calls ∧
    (reconcile ServiceName services snapshot es).es.Perm
      (reconcile ServiceName services snapshot' es).es := by
  obtain ⟨A, hA, hr⟩ := reconcile_spec ServiceName services snapshot es
  obtain ⟨A', hA', hr'⟩ := reconcile_spec ServiceName services snapshot' es
  have hdet1 : ∀ e e', Candidate ServiceName services snapshot e →
      Candidate ServiceName services snapshot e' → e.key = e'.key → e = e' := by
    rintro e e' ⟨s, hs, hreq, p, hp, rfl⟩ ⟨s', hs', hreq', p', hp', rfl⟩ hk
    simp only [BrowseEntry.key, newEntry, Prod.mk.injEq] at hk
    exact hdet s hs hreq p hp s' hs' hreq' p' hp' hk.1 hk.2.1 hk.2.2
  have hdet2 : ∀ e e', Candidate ServiceName services snapshot' e →
      Candidate ServiceName services snapshot' e' → e.key = e'.key → e = e' :=
    fun e e' hc hc' hk =>
      hdet1 e e' ((hperm.candidate_iff hSN e).2 hc) ((hperm.candidate_iff hSN e').2 hc') hk
  have hAA : A.Perm A' := by
    refine (List.perm_ext_iff_of_nodup hA.distinct.nodup hA'.distinct.nodup).2 (fun e => ?_)
    rw [hA.mem_iff hdet1 e, hA'.mem_iff hdet2 e, hperm.candidate_iff hSN e]
  have hkeep : es.filter (fun e => foundService e snapshot) =
      es.filter (fun e => foundService e snapshot') :=
    List.filter_congr (fun e _ => hperm.foundService_eq e)
  have hdrop : es.filter (fun e => !foundService e snapshot) =
      es.filter (fun e => !foundService e snapshot') :=
    List.filter_congr (fun e _ => by rw [hperm.foundService_eq e])
  rw [hr, hr', hkeep, hdrop]
  refine ⟨fun e => ?_, fun e => ?_, ?_, ?_⟩
  · rw [mem_add_calls_iff, mem_add_calls_iff]
    exact hAA.mem_iff
  · rw [mem_rmv_calls_iff, mem_rmv_calls_iff]
  · exact List.Perm.append (hAA.map _) (List.Perm.refl _)
  · exact List.Perm.append_left _ hAA

/-- Witness of C15 (amended): the printer and the scanner listed in the other
order, the printer with its interfaces in the other order. -/
theorem snapshot_order_independent_witness :
    (reconcile Service.ServiceName ["_ipp._tcp"] [printer, scanner] [entryCorpEn1]).calls.Perm
      (reconcile Service.ServiceName ["_ipp._tcp"] [scanner, printerSwapped]
        [entryCorpEn1]).calls ∧
    (reconcile Service.ServiceName ["_ipp._tcp"] [printer, scanner] [entryCorpEn1]).es.Perm
      (reconcile Service.ServiceName ["_ipp._tcp"] [scanner, printerSwapped]
        [entryCorpEn1]).es ∧
    (reconcile Service.ServiceName ["_ipp._tcp"] [printer, scanner] [entryCorpEn1]).es ≠
      (reconcile Service.ServiceName ["_ipp._tcp"] [scanner, printerSwapped]
        [entryCorpEn1]).es :=
  ⟨(snapshot_order_independent Service.ServiceName ["_ipp._tcp"] [entryCorpEn1]
      [printer, scanner] [scanner, printerSwapped] (fun _ _ => rfl)
      ⟨[scanner, printer], List.Perm.swap _ _ _,
        List.Forall₂.cons ⟨rfl, List.Perm.refl _⟩
          (List.Forall₂.cons ⟨rfl, List.Perm.swap _ _ _⟩ List.Forall₂.nil)⟩
      (by decide)).2.2.1,
    (snapshot_order_independent Service.ServiceName ["_ipp._tcp"] [entryCorpEn1]
      [printer, scanner] [scanner, printerSwapped] (fun _ _ => rfl)
      ⟨[scanner, printer], List.Perm.swap _ _ _,
        List.Forall₂.cons ⟨rfl, List.Perm.refl _⟩
          (List.Forall₂.cons ⟨rfl, List.Perm.swap _ _ _⟩ List.Forall₂.nil)⟩
      (by decide)).2.2.2,
    by decide⟩

end Dnssd
